import Mathlib

/-!
# Verification of the applechess search-and-evaluation engine

This file gives a shallow embedding of `src/applechess/chess_agent.py`
(class `ChessAgent`) and proves properties of the embedded code.

The board/move library used by the Python code (`python-chess`) is an
external collaborator.  It is modelled as an abstract interface
`ChessLib β`: a type `β` of board states together with the query
functions the agent code calls (`outcome`, `can_claim_draw`,
`piece_map`, `piece_at`, `king`, `attackers`, `pieces`, `legal_moves`,
`push`, `is_capture`, `is_into_check`, `turn`).  The agent's own code is
translated faithfully on top of this interface.

Python floats are modelled by `ℚ` (every constant in the source is a
small decimal, and no claim depends on binary rounding).  The values
`float("-inf")` / `float("inf")` used as initial alpha/beta are modelled
by `⊥` / `⊤` of `WithBot (WithTop ℚ)`.
-/

/-- Embedding of `chess.Color`, a `bool` in python-chess (`WHITE = True`). -/
abbrev Color := Bool

/-- Embedding of `chess.WHITE`. -/
def WHITE : Color := true

/-- The six piece types of `python-chess` (`chess.PAWN` … `chess.KING`). -/
inductive PieceType where
  | pawn
  | knight
  | bishop
  | rook
  | queen
  | king
deriving DecidableEq, Repr

/-- Embedding of `chess.Piece`: a piece type together with a color. -/
structure Piece where
  piece_type : PieceType
  color : Color
deriving DecidableEq, Repr

/-- Embedding of `chess.Outcome` (only the `winner` field is consulted by the agent). -/
structure Outcome where
  winner : Option Color
deriving DecidableEq, Repr

/-- Embedding of `chess.Move`: squares are the python-chess square numbers `0..63`
(`A1 = 0`, file = square % 8), with an optional promotion piece type. -/
structure Move where
  from_square : Nat
  to_square : Nat
  promotion : Option PieceType
deriving DecidableEq, Repr

/-- The interface of the external rules engine (`python-chess`), as used
by `ChessAgent`.  `attackers_len` is `len(board.attackers(color, sq))`,
`pieces` is `list(board.pieces(piece_type, color))` (ascending square
order), `piece_map` is `board.piece_map().items()`,
`move_stack_len` is `len(board.move_stack)` (half-moves played). -/
structure ChessLib (β : Type) where
  outcome : β → Option Outcome
  can_claim_draw : β → Bool
  move_stack_len : β → Nat
  piece_map : β → List (Nat × Piece)
  piece_at : β → Nat → Option Piece
  king : β → Color → Option Nat
  attackers_len : β → Color → Nat → Nat
  pieces : β → PieceType → Color → List Nat
  legal_moves : β → List Move
  push : β → Move → β
  is_capture : β → Move → Bool
  is_into_check : β → Move → Bool
  turn : β → Color

/-- Translation of `ChessAgent.get_value` (`chess_agent.py` lines 51–71): standard piece
values; the catch-all branch (reached only by the king) returns 0. -/
def get_value (p : Piece) : ℚ :=
  match p.piece_type with
  | .bishop => 3
  | .knight => 3
  | .queen => 9
  | .rook => 5
  | .pawn => 1
  | .king => 0

/-- Translation of `ChessAgent.__pawns_per_column` (lines 73–94), as a per-file count:
the number of pawns of `c` on file `f` (`square % 8 = f`).  The source
builds the 8-entry list by iterating over `board.pieces(PAWN, color)`
and incrementing the entry of each pawn's file, which yields exactly
these counts. -/
def pawns_per_column {β : Type} (L : ChessLib β) (bd : β) (c : Color) (f : Nat) : Nat :=
  (L.pieces bd PieceType.pawn c).countP (fun sq => sq % 8 == f)

/-- The game-phase enum of `ChessAgent.GamePhase`. -/
inductive GamePhase where
  | opening
  | midgame
  | endgame
deriving DecidableEq, Repr

/-- The phase classification of `_get_heuristic` (lines 111–118):
OPENING when fewer than 12 half-moves have been played, otherwise
ENDGAME when fewer than 13 pieces are on the board, otherwise MIDGAME. -/
def game_phase {β : Type} (L : ChessLib β) (bd : β) : GamePhase :=
  if L.move_stack_len bd < 12 then GamePhase.opening
  else if (L.piece_map bd).length < 13 then GamePhase.endgame
  else GamePhase.midgame

/-- King-position term (lines 121–128): +0.1 when the king of `c` sits
on a castled square (white G1/C1/B1 = 6/2/1, black G8/C8/B8 = 62/58/57).
`None in (...)` is false in Python, hence the `none` branch gives 0. -/
def king_pos_score {β : Type} (L : ChessLib β) (bd : β) (c : Color) : ℚ :=
  match L.king bd c with
  | none => 0
  | some sq =>
    if c = WHITE then
      (if sq = 6 ∨ sq = 2 ∨ sq = 1 then 0.1 else 0)
    else
      (if sq = 62 ∨ sq = 58 ∨ sq = 57 then 0.1 else 0)

/-- The four center squares E4, E5, D4, D5 (lines 131). -/
def center_squares : List Nat := [28, 36, 27, 35]

/-- Center-control contribution of one square (lines 132–139). -/
def center_term {β : Type} (L : ChessLib β) (bd : β) (c : Color) (sq : Nat) : ℚ :=
  match L.piece_at bd sq with
  | none => 0.15 * (L.attackers_len bd c sq : ℚ)
  | some p => if p.color = c then 0.4 else -0.4

/-- Center-control term (lines 130–139). -/
def center_score {β : Type} (L : ChessLib β) (bd : β) (c : Color) : ℚ :=
  (center_squares.map (center_term L bd c)).sum

/-- Doubled-pawn penalty (lines 141–145, applied in OPENING and
MIDGAME): −0.3 for every file holding more than one pawn of `c`. -/
def doubled_score {β : Type} (L : ChessLib β) (bd : β) (c : Color) : ℚ :=
  ((List.range 8).map (fun f =>
    if 1 < pawns_per_column L bd c f then (-0.3 : ℚ) else 0)).sum

/-- Minor-piece development term (lines 147–159, OPENING): −0.1 for each
bishop/knight of `c` still on its initial square. -/
def development_score {β : Type} (L : ChessLib β) (bd : β) (c : Color) : ℚ :=
  ((if c = WHITE then [1, 6, 2, 5] else [57, 62, 58, 61]).map (fun sq =>
    match L.piece_at bd sq with
    | none => 0
    | some p =>
      if p.color = c ∧ (p.piece_type = PieceType.bishop ∨ p.piece_type = PieceType.knight)
      then (-0.1 : ℚ) else 0)).sum

/-- Queen-home term (lines 161–168, OPENING): +0.15 when `c` has exactly
one queen and it stands on the two back ranks of `c` (white squares
0–15, black squares 48–63). -/
def queen_home_score {β : Type} (L : ChessLib β) (bd : β) (c : Color) : ℚ :=
  match L.pieces bd PieceType.queen c with
  | [q] =>
    if (if c = WHITE then q < 16 else 48 ≤ q ∧ q < 64) then 0.15 else 0
  | _ => 0

/-- MIDGAME passed-pawn bonus (lines 174–177): +0.2 per file where `c`
has a pawn and the opponent has none. -/
def mid_passed_score {β : Type} (L : ChessLib β) (bd : β) (c : Color) : ℚ :=
  ((List.range 8).map (fun f =>
    if 0 < pawns_per_column L bd c f ∧ pawns_per_column L bd (!c) f = 0
    then (0.2 : ℚ) else 0)).sum

/-- MIDGAME opponent-passed-pawn penalty (lines 178–181): −0.2 per file
where the opponent has a pawn and `c` has none. -/
def mid_opp_passed_score {β : Type} (L : ChessLib β) (bd : β) (c : Color) : ℚ :=
  ((List.range 8).map (fun f =>
    if 0 < pawns_per_column L bd (!c) f ∧ pawns_per_column L bd c f = 0
    then (-0.2 : ℚ) else 0)).sum

/-- MIDGAME isolated-pawn penalty (lines 183–192): −0.15 on the edge
files (no neighbour on the single adjacent file), −0.2 on interior files
(no neighbour on either adjacent file). -/
def mid_isolated_score {β : Type} (L : ChessLib β) (bd : β) (c : Color) : ℚ :=
  ((List.range 8).map (fun f =>
    if f = 0 then
      (if 0 < pawns_per_column L bd c 0 ∧ pawns_per_column L bd c 1 = 0
       then (-0.15 : ℚ) else 0)
    else if f = 7 then
      (if 0 < pawns_per_column L bd c 7 ∧ pawns_per_column L bd c 6 = 0
       then (-0.15 : ℚ) else 0)
    else
      (if 0 < pawns_per_column L bd c f ∧ pawns_per_column L bd c (f - 1) = 0
           ∧ pawns_per_column L bd c (f + 1) = 0
       then (-0.2 : ℚ) else 0))).sum

/-- ENDGAME passed-pawn bonus (lines 198–201): +1 per file where `c` has
a pawn and the opponent has none. -/
def end_passed_score {β : Type} (L : ChessLib β) (bd : β) (c : Color) : ℚ :=
  ((List.range 8).map (fun f =>
    if 0 < pawns_per_column L bd c f ∧ pawns_per_column L bd (!c) f = 0
    then (1 : ℚ) else 0)).sum

/-- ENDGAME opponent-passed-pawn penalty (lines 202–205): −1 per file
where the opponent has a pawn and `c` has none. -/
def end_opp_passed_score {β : Type} (L : ChessLib β) (bd : β) (c : Color) : ℚ :=
  ((List.range 8).map (fun f =>
    if 0 < pawns_per_column L bd (!c) f ∧ pawns_per_column L bd c f = 0
    then (-1 : ℚ) else 0)).sum

/-- ENDGAME king-activity term (lines 207–210): +0.1 per legal move
whose origin square holds a king (python-chess raises on an empty origin
square; legal moves always have an occupied origin, so the `none` branch
is unreachable for well-formed positions and contributes 0). -/
def king_activity_score {β : Type} (L : ChessLib β) (bd : β) : ℚ :=
  ((L.legal_moves bd).map (fun m =>
    match L.piece_at bd m.from_square with
    | none => 0
    | some p => if p.piece_type = PieceType.king then (0.1 : ℚ) else 0)).sum

/-- Variable `agent_material` of lines 212–220: total `get_value` of the pieces
of `c` in `board.piece_map()`. -/
def agent_material {β : Type} (L : ChessLib β) (bd : β) (c : Color) : ℚ :=
  ((L.piece_map bd).map (fun pr => if pr.2.color = c then get_value pr.2 else 0)).sum

/-- Variable `opponent_material` of lines 212–220. -/
def opponent_material {β : Type} (L : ChessLib β) (bd : β) (c : Color) : ℚ :=
  ((L.piece_map bd).map (fun pr => if pr.2.color = c then 0 else get_value pr.2)).sum

/-- Variable `diff_material` of line 223. -/
def material_diff {β : Type} (L : ChessLib β) (bd : β) (c : Color) : ℚ :=
  agent_material L bd c - opponent_material L bd c

/-- The phase weight applied to `diff_material` (lines 224–229). -/
def phase_weight : GamePhase → ℚ
  | GamePhase.opening => 1
  | GamePhase.midgame => 1.5
  | GamePhase.endgame => 3

/-- Translation of `ChessAgent._get_heuristic` (lines 96–241), translated term by term
in source order: decided outcomes and claimable draws first, then the
phase-gated positional terms, then the weighted material difference. -/
def get_heuristic {β : Type} (L : ChessLib β) (bd : β) (c : Color) : ℚ :=
  match L.outcome bd with
  | some oc =>
    match oc.winner with
    | none => 0.5
    | some w => if w = c then 1000000 else -1000000
  | none =>
    if L.can_claim_draw bd then 0.5
    else
      let phase := game_phase L bd
      (if phase = GamePhase.opening ∨ phase = GamePhase.midgame then
        king_pos_score L bd c + center_score L bd c + doubled_score L bd c
       else 0)
      + (if phase = GamePhase.opening then
          development_score L bd c + queen_home_score L bd c
         else 0)
      + (if phase = GamePhase.midgame then
          mid_passed_score L bd c + mid_opp_passed_score L bd c + mid_isolated_score L bd c
         else 0)
      + (if phase = GamePhase.endgame then
          end_passed_score L bd c + end_opp_passed_score L bd c + king_activity_score L bd
         else 0)
      + phase_weight phase * material_diff L bd c

/-! ## Move ordering (`get_ordered_legal_moves`, lines 255–283) -/

/-- The priority score assigned to a move by `get_ordered_legal_moves`
(lines 265–279).  A capture scores victim value minus attacker value;
when either square lookup returns `None`, Python raises an
`AttributeError` inside `get_value` and the handler assigns 10 (this is
the en-passant fallback).  Non-captures score −10.  A promotion adds 50
and a move into check adds 5. -/
def move_priority {β : Type} (L : ChessLib β) (bd : β) (m : Move) : ℚ :=
  (if L.is_capture bd m then
    match L.piece_at bd m.to_square, L.piece_at bd m.from_square with
    | some victim, some attacker => get_value victim - get_value attacker
    | _, _ => 10
   else -10)
  + (if m.promotion.isSome then 50 else 0)
  + (if L.is_into_check bd m then 5 else 0)

/-- Stable descending insertion of `x` into a list already sorted by
non-increasing `key`: `x` goes after every element whose key is at least
`key x`.  Processing a list left-to-right with this insertion reproduces
Python's stable `list.sort(key=..., reverse=True)`. -/
def insert_desc {α : Type} (key : α → ℚ) (x : α) : List α → List α
  | [] => [x]
  | y :: ys => if key y < key x then x :: y :: ys else y :: insert_desc key x ys

/-- Stable sort by non-increasing `key` (Python `sort(key=..., reverse=True)`). -/
def sort_desc {α : Type} (key : α → ℚ) (l : List α) : List α :=
  l.foldl (fun acc x => insert_desc key x acc) []

/-- Translation of `ChessAgent.get_ordered_legal_moves` (lines 255–283): the legal
moves sorted by non-increasing `move_priority`.  The source sorts a list
of `(score, move)` pairs by the score component with `reverse=True`,
which is exactly a stable descending sort keyed by `move_priority`. -/
def get_ordered_legal_moves {β : Type} (L : ChessLib β) (bd : β) : List Move :=
  sort_desc (move_priority L bd) (L.legal_moves bd)

/-! ## The search (`_alphabeta`, lines 285–341)

Scores flow through the search as Python floats seeded with
`float("-inf")` / `float("inf")`; the embedding uses
`Score := WithBot (WithTop ℚ)` with `⊥` / `⊤` for the two infinities. -/

/-- Scores inside the search: rationals extended with `−∞` and `+∞`. -/
abbrev Score := WithBot (WithTop ℚ)

/-- Embedding of a finite float (a rational) into `Score`. -/
def qS (q : ℚ) : Score := ((q : WithTop ℚ) : WithBot (WithTop ℚ))

/-- Translation of `ChessAgent.play_move` (lines 243–253): copy the board and push the
move.  The copy is what makes each search branch own its position; the
abstract `push` returns the successor board. -/
def play_move {β : Type} (L : ChessLib β) (bd : β) (m : Move) : β :=
  L.push bd m

/-- The maximizing loop of the sequential branch of `_alphabeta`
(lines 324–332): fold over the ordered moves carrying the running
`value` and `a`; `a` is updated to `max a value` and the loop breaks
(returning `value`) as soon as `value > b`.  `rec` is the recursive
call at depth − 1 (with `maximizing_player = False`). -/
def ab_max_loop {β : Type} (L : ChessLib β) (rec : β → Score → Score → Score)
    (node : β) : List Move → Score → Score → Score → Score
  | [], value, _, _ => value
  | m :: ms, value, a, b =>
    let child := play_move L node m
    let value' := max value (rec child a b)
    let a' := max a value'
    if b < value' then value' else ab_max_loop L rec node ms value' a' b

/-- The minimizing loop of the sequential branch of `_alphabeta`
(lines 334–341): `b` is updated to `min b value` and the loop breaks
(returning `value`) as soon as `value <= a`. -/
def ab_min_loop {β : Type} (L : ChessLib β) (rec : β → Score → Score → Score)
    (node : β) : List Move → Score → Score → Score → Score
  | [], value, _, _ => value
  | m :: ms, value, a, b =>
    let child := play_move L node m
    let value' := min value (rec child a b)
    let b' := min b value'
    if value' ≤ a then value' else ab_min_loop L rec node ms value' a b'

/-- Translation of `ChessAgent._alphabeta` with `parallelize=False` (lines 285–341,
sequential branch).  `depth == 0` or a decided outcome returns the
heuristic; otherwise the node iterates over the ordered legal moves with
the alpha-beta loops, recursing at `depth - 1` with the maximizing flag
flipped and the searching color `c` fixed. -/
def alphabeta_seq {β : Type} (L : ChessLib β) (c : Color) :
    Nat → β → Bool → Score → Score → Score
  | 0, node, _, _, _ => qS (get_heuristic L node c)
  | d + 1, node, maximizing, a, b =>
    if (L.outcome node).isSome then qS (get_heuristic L node c)
    else if maximizing then
      ab_max_loop L (fun child a' b' => alphabeta_seq L c d child false a' b')
        node (get_ordered_legal_moves L node) ⊥ a b
    else
      ab_min_loop L (fun child a' b' => alphabeta_seq L c d child true a' b')
        node (get_ordered_legal_moves L node) ⊤ a b

/-- Translation of `ChessAgent._alphabeta` with `parallelize=True` (lines 311–322): the
children of this node are evaluated by the sequential search at
`depth - 1` with the unchanged window `(a, b)`, and the node returns the
max (resp. min) of the collected values.  Python's `as_completed`
delivers the values in an arbitrary order, which is irrelevant to
max/min; Python's `max`/`min` raise on an empty collection, which cannot
occur for a position whose `outcome()` is `None` in a real game — the
embedding folds from `⊥`/`⊤`, and every theorem that touches this
function carries the corresponding non-emptiness hypothesis. -/
def alphabeta_par {β : Type} (L : ChessLib β) (c : Color) :
    Nat → β → Bool → Score → Score → Score
  | 0, node, _, _, _ => qS (get_heuristic L node c)
  | d + 1, node, maximizing, a, b =>
    if (L.outcome node).isSome then qS (get_heuristic L node c)
    else
      let values := (get_ordered_legal_moves L node).map
        (fun m => alphabeta_seq L c d (play_move L node m) (!maximizing) a b)
      if maximizing then values.foldr max ⊥ else values.foldr min ⊤

/-! ## Root scheduling and best-move selection (`get_best_move`,
lines 343–370) -/

/-- The root scores of the sequential path of `get_best_move`
(lines 364–367).  For each legal root move the code calls
`self._alphabeta(next_board, depth - 1, color, False, True)` — the
fifth positional argument is `a = True`, which Python compares as the
float 1.0, `b` keeps its default `inf`, and `parallelize` keeps its
default `True`. -/
def root_scores_seq {β : Type} (L : ChessLib β) (d : Nat) (bd : β) :
    List (Move × Score) :=
  (L.legal_moves bd).map (fun m =>
    (m, alphabeta_par L (L.turn bd) (d - 1) (play_move L bd m) false (qS 1) ⊤))

/-- The root scores of the parallel path of `get_best_move`
(lines 352–362).  The loop body rebinds the whole dictionary
(`future_to_move = {executor.submit(...): move}`) instead of inserting
into it, so after the loop only the **last** legal move survives; its
subtree is searched with the full window `(-inf, inf)` and
`parallelize=True`. -/
def root_scores_par {β : Type} (L : ChessLib β) (d : Nat) (bd : β) :
    List (Move × Score) :=
  match (L.legal_moves bd).getLast? with
  | none => []
  | some m => [(m, alphabeta_par L (L.turn bd) (d - 1) (play_move L bd m) false ⊥ ⊤)]

/-- Expression `max(scores.values())` over the root score map.  (In Python this
expression is only ever evaluated when the map is non-empty, because it
sits inside a comprehension over `scores.keys()`.) -/
def max_root_score (scores : List (Move × Score)) : Score :=
  (scores.map Prod.snd).foldr max ⊥

/-- Line 369, `best_moves = [move for move in scores.keys() if scores[move] ==
max(scores.values())]` (line 369). -/
def best_root_moves (scores : List (Move × Score)) : List Move :=
  (scores.filter (fun p => p.2 = max_root_score scores)).map Prod.fst

/-- Translation of `ChessAgent.get_best_move` with `parallelize=False`.  `choice`
models `random.choice`: it must return a member of a non-empty list and
raise (`none`) on the empty list. -/
def get_best_move_seq {β : Type} (L : ChessLib β)
    (choice : List Move → Option Move) (d : Nat) (bd : β) : Option Move :=
  choice (best_root_moves (root_scores_seq L d bd))

/-- Translation of `ChessAgent.get_best_move` with `parallelize=True` (including the
dictionary-rebinding slip described at `root_scores_par`). -/
def get_best_move_par {β : Type} (L : ChessLib β)
    (choice : List Move → Option Move) (d : Nat) (bd : β) : Option Move :=
  choice (best_root_moves (root_scores_par L d bd))

/-! ## Specification-side definitions

These definitions follow the words of the specification, to be compared
with the translated code. -/

/-- Modelled from the spec: plain unpruned minimax over the same move
tree (children by `push` over the legal moves), the same depth/outcome
cut-off, and the same evaluator, with no window and no ordering. -/
def minimax_spec {β : Type} (L : ChessLib β) (c : Color) :
    Nat → β → Bool → Score
  | 0, node, _ => qS (get_heuristic L node c)
  | d + 1, node, maximizing =>
    if (L.outcome node).isSome then qS (get_heuristic L node c)
    else
      let values := (L.legal_moves node).map
        (fun m => minimax_spec L c d (L.push node m) (!maximizing))
      if maximizing then values.foldr max ⊥ else values.foldr min ⊤

/-- The piece values as the specification lists them
(pawn=1, knight=3, bishop=3, rook=5, queen=9, king=0). -/
def spec_piece_value : PieceType → ℚ
  | PieceType.pawn => 1
  | PieceType.knight => 3
  | PieceType.bishop => 3
  | PieceType.rook => 5
  | PieceType.queen => 9
  | PieceType.king => 0

/-- The specification's material sum for one color: the sum of the
standard piece values over that color's pieces on the board. -/
def spec_material {β : Type} (L : ChessLib β) (bd : β) (c : Color) : ℚ :=
  (((L.piece_map bd).filter (fun pr => pr.2.color = c)).map
    (fun pr => spec_piece_value pr.2.piece_type)).sum

/-- The positional (non-material) part of the heuristic: everything the
evaluator adds besides the weighted material difference. -/
def positional_score {β : Type} (L : ChessLib β) (bd : β) (c : Color) : ℚ :=
  (if game_phase L bd = GamePhase.opening ∨ game_phase L bd = GamePhase.midgame then
    king_pos_score L bd c + center_score L bd c + doubled_score L bd c
   else 0)
  + (if game_phase L bd = GamePhase.opening then
      development_score L bd c + queen_home_score L bd c
     else 0)
  + (if game_phase L bd = GamePhase.midgame then
      mid_passed_score L bd c + mid_opp_passed_score L bd c + mid_isolated_score L bd c
     else 0)
  + (if game_phase L bd = GamePhase.endgame then
      end_passed_score L bd c + end_opp_passed_score L bd c + king_activity_score L bd
     else 0)

/-- Number of files on which `c` has a pawn and the opponent has none
(the per-file passed-pawn count of the specification). -/
def passed_file_count {β : Type} (L : ChessLib β) (bd : β) (c : Color) : Nat :=
  (List.range 8).countP (fun f =>
    decide (0 < pawns_per_column L bd c f ∧ pawns_per_column L bd (!c) f = 0))

/-- Number of files on which `c` has more than one pawn (doubled). -/
def doubled_file_count {β : Type} (L : ChessLib β) (bd : β) (c : Color) : Nat :=
  (List.range 8).countP (fun f => decide (1 < pawns_per_column L bd c f))

/-- Number of interior files (1–6) whose pawn of `c` is isolated, i.e.
`c` has a pawn there and none on either adjacent file. -/
def isolated_mid_file_count {β : Type} (L : ChessLib β) (bd : β) (c : Color) : Nat :=
  ([1, 2, 3, 4, 5, 6] : List Nat).countP (fun f =>
    decide (0 < pawns_per_column L bd c f ∧ pawns_per_column L bd c (f - 1) = 0 ∧
      pawns_per_column L bd c (f + 1) = 0))

/-- Number of edge files (0 and 7) whose pawn of `c` is isolated, i.e.
`c` has a pawn there and none on the single adjacent file. -/
def isolated_edge_file_count {β : Type} (L : ChessLib β) (bd : β) (c : Color) : Nat :=
  (if 0 < pawns_per_column L bd c 0 ∧ pawns_per_column L bd c 1 = 0 then 1 else 0)
  + (if 0 < pawns_per_column L bd c 7 ∧ pawns_per_column L bd c 6 = 0 then 1 else 0)

/-- Total number of isolated pawns-files of `c` (edge or interior). -/
def isolated_file_count {β : Type} (L : ChessLib β) (bd : β) (c : Color) : Nat :=
  isolated_edge_file_count L bd c + isolated_mid_file_count L bd c

/-- The move priority exactly as the specification describes it: victim
minus attacker for captures with a piece on the destination square, the
fixed baseline −10 for non-captures, a flat +50 for promotions — and no
other contribution. -/
def spec_priority {β : Type} (L : ChessLib β) (bd : β) (m : Move) : ℚ :=
  (if L.is_capture bd m then
    match L.piece_at bd m.to_square, L.piece_at bd m.from_square with
    | some victim, some attacker => get_value victim - get_value attacker
    | _, _ => 10
   else -10)
  + (if m.promotion.isSome then 50 else 0)

/-! ## Concrete test positions

Small concrete instances of the `ChessLib` interface, used to evaluate
the embedded code on explicit inputs. -/

/-- A quiet white piece: shorthand for test positions. -/
def wP : Piece := ⟨PieceType.pawn, true⟩

/-- Shorthands for the pieces appearing in the test positions. -/
def wN : Piece := ⟨PieceType.knight, true⟩

def wB : Piece := ⟨PieceType.bishop, true⟩

def wR : Piece := ⟨PieceType.rook, true⟩

def wQ : Piece := ⟨PieceType.queen, true⟩

def wK : Piece := ⟨PieceType.king, true⟩

def bP : Piece := ⟨PieceType.pawn, false⟩

def bN : Piece := ⟨PieceType.knight, false⟩

def bB : Piece := ⟨PieceType.bishop, false⟩

def bR : Piece := ⟨PieceType.rook, false⟩

def bQ : Piece := ⟨PieceType.queen, false⟩

def bK : Piece := ⟨PieceType.king, false⟩

/-- First root move of the toy game `CLg` (leads to a won position). -/
def mA : Move := ⟨8, 16, none⟩

/-- Second (and last) root move of the toy game `CLg` (leads to a lost
position). -/
def mB : Move := ⟨9, 17, none⟩

/-- A toy game with four positions: 0 is a live root with the two legal
moves `mA` (to the white-win position 1) and `mB` (to the black-win
position 2); position 3 is a drawn terminal position used as the default
successor. -/
def CLg : ChessLib (Fin 4) where
  outcome bd :=
    if bd = 0 then none
    else if bd = 1 then some ⟨some true⟩
    else if bd = 2 then some ⟨some false⟩
    else some ⟨none⟩
  can_claim_draw _ := false
  move_stack_len _ := 20
  piece_map _ := []
  piece_at _ _ := none
  king _ _ := none
  attackers_len _ _ _ := 0
  pieces _ _ _ := []
  legal_moves bd := if bd = 0 then [mA, mB] else []
  push bd m := if bd = 0 then (if m = mA then 1 else if m = mB then 2 else 3) else 3
  is_capture _ _ := false
  is_into_check _ _ := false
  turn _ := true

/-- The 32-piece starting placement, used for a position early in the
game. -/
def start_piece_map : List (Nat × Piece) :=
  [(0, wR), (1, wN), (2, wB), (3, wQ), (4, wK), (5, wB), (6, wN), (7, wR),
   (8, wP), (9, wP), (10, wP), (11, wP), (12, wP), (13, wP), (14, wP), (15, wP),
   (48, bP), (49, bP), (50, bP), (51, bP), (52, bP), (53, bP), (54, bP), (55, bP),
   (56, bR), (57, bN), (58, bB), (59, bQ), (60, bK), (61, bB), (62, bN), (63, bR)]

/-- Evaluation test positions.
* 0: a 14-piece midgame position (20 half-moves played); white pawns on
  a2/b2/c2, black pawns on f7/g7/h7, heavy pieces and kings at home.
* 1: a 4-piece endgame (30 half-moves): white pawns a2+b2 and both
  kings; white to move with two king moves.
* 2: as 1 but with the white pawns on a2+c2 (both isolated); same king
  moves.
* 3: the starting placement after 11 half-moves (still all 32 pieces).
-/
def CLp : ChessLib (Fin 4) where
  outcome _ := none
  can_claim_draw _ := false
  move_stack_len bd := if bd = 3 then 11 else if bd = 0 then 20 else 30
  piece_map bd :=
    if bd = 0 then
      [(4, wK), (3, wQ), (0, wR), (7, wR), (8, wP), (9, wP), (10, wP),
       (60, bK), (59, bQ), (56, bR), (63, bR), (53, bP), (54, bP), (55, bP)]
    else if bd = 1 then [(8, wP), (9, wP), (4, wK), (60, bK)]
    else if bd = 2 then [(8, wP), (10, wP), (4, wK), (60, bK)]
    else start_piece_map
  piece_at bd sq :=
    if bd = 0 then
      (if sq = 4 then some wK else if sq = 3 then some wQ
       else if sq = 0 then some wR else if sq = 7 then some wR
       else if sq = 8 ∨ sq = 9 ∨ sq = 10 then some wP
       else if sq = 60 then some bK else if sq = 59 then some bQ
       else if sq = 56 ∨ sq = 63 then some bR
       else if sq = 53 ∨ sq = 54 ∨ sq = 55 then some bP
       else none)
    else if bd = 1 then
      (if sq = 8 ∨ sq = 9 then some wP else if sq = 4 then some wK
       else if sq = 60 then some bK else none)
    else if bd = 2 then
      (if sq = 8 ∨ sq = 10 then some wP else if sq = 4 then some wK
       else if sq = 60 then some bK else none)
    else (start_piece_map.lookup sq)
  king bd c := if c = WHITE then some 4 else some 60
  attackers_len _ _ _ := 0
  pieces bd pt c :=
    if pt = PieceType.pawn then
      (if bd = 0 then (if c = WHITE then [8, 9, 10] else [53, 54, 55])
       else if bd = 1 then (if c = WHITE then [8, 9] else [])
       else if bd = 2 then (if c = WHITE then [8, 10] else [])
       else (if c = WHITE then [8, 9, 10, 11, 12, 13, 14, 15]
             else [48, 49, 50, 51, 52, 53, 54, 55]))
    else if pt = PieceType.queen then
      (if bd = 0 ∨ bd = 3 then (if c = WHITE then [3] else [59]) else [])
    else []
  legal_moves bd :=
    if bd = 1 ∨ bd = 2 then [⟨4, 3, none⟩, ⟨4, 5, none⟩] else []
  push _ _ := 0
  is_capture _ _ := false
  is_into_check _ _ := false
  turn _ := true

/-- Moves of the ordering test position `CLm`: a quiet move, a queen
takes pawn, an en-passant capture (empty destination square), a knight
takes queen, and a quiet promotion. -/
def mQuiet : Move := ⟨12, 20, none⟩

def mQxP : Move := ⟨3, 27, none⟩

def mEP : Move := ⟨35, 42, none⟩

def mNxQ : Move := ⟨6, 21, none⟩

def mProm : Move := ⟨52, 60, some PieceType.queen⟩

/-- A move-ordering test position (board 0): five legal moves covering a
quiet move, two ordinary captures, an en-passant capture and a
promotion.  Board 1 is a terminal default successor. -/
def CLm : ChessLib (Fin 2) where
  outcome bd := if bd = 0 then none else some ⟨none⟩
  can_claim_draw _ := false
  move_stack_len _ := 20
  piece_map _ := []
  piece_at bd sq :=
    if bd = 0 then
      (if sq = 3 then some wQ else if sq = 27 then some bP
       else if sq = 35 then some wP else if sq = 6 then some wN
       else if sq = 21 then some bQ else if sq = 12 then some wB
       else if sq = 52 then some wP else none)
    else none
  king _ _ := none
  attackers_len _ _ _ := 0
  pieces _ _ _ := []
  legal_moves bd := if bd = 0 then [mQuiet, mQxP, mEP, mNxQ, mProm] else []
  push _ _ := 1
  is_capture bd m := m = mQxP ∨ m = mEP ∨ m = mNxQ
  is_into_check _ _ := false
  turn _ := true

/-! ## Generic list lemmas -/

instance : LeftCommutative (max : Score → Score → Score) := max_left_commutative

instance : LeftCommutative (min : Score → Score → Score) := min_left_commutative

theorem sum_map_ite_countP {α : Type} (p : α → Prop) [DecidablePred p] (q : ℚ) :
    ∀ l : List α,
      (l.map (fun x => if p x then q else 0)).sum = q * ((l.countP (fun x => decide (p x)) : ℚ))
  | [] => by simp
  | x :: l => by
    rw [List.map_cons, List.sum_cons, List.countP_cons, sum_map_ite_countP p q l]
    by_cases h : p x <;> simp [h] <;> push_cast <;> ring

theorem sum_map_le {α : Type} (f : α → ℚ) (u : ℚ) :
    ∀ l : List α, (∀ x ∈ l, f x ≤ u) → (l.map f).sum ≤ (l.length : ℚ) * u
  | [], _ => by simp
  | x :: l, h => by
    have h1 := h x (List.mem_cons_self x l)
    have h2 := sum_map_le f u l (fun y hy => h y (List.mem_cons_of_mem x hy))
    simp only [List.map_cons, List.sum_cons, List.length_cons]
    push_cast
    linarith

theorem le_sum_map {α : Type} (f : α → ℚ) (lo : ℚ) :
    ∀ l : List α, (∀ x ∈ l, lo ≤ f x) → (l.length : ℚ) * lo ≤ (l.map f).sum
  | [], _ => by simp
  | x :: l, h => by
    have h1 := h x (List.mem_cons_self x l)
    have h2 := le_sum_map f lo l (fun y hy => h y (List.mem_cons_of_mem x hy))
    simp only [List.map_cons, List.sum_cons, List.length_cons]
    push_cast
    linarith

theorem foldr_max_le (u : Score) : ∀ l : List Score, (∀ x ∈ l, x ≤ u) → l.foldr max ⊥ ≤ u
  | [], _ => bot_le
  | x :: l, h => by
    rw [List.foldr_cons]
    exact max_le (h x (List.mem_cons_self x l))
      (foldr_max_le u l (fun y hy => h y (List.mem_cons_of_mem x hy)))

theorem le_foldr_max : ∀ l : List Score, ∀ x ∈ l, x ≤ l.foldr max ⊥
  | x :: l, y, hy => by
    rw [List.foldr_cons]
    rcases List.mem_cons.1 hy with h | h
    · exact h ▸ le_max_left _ _
    · exact le_trans (le_foldr_max l y h) (le_max_right _ _)

theorem lb_foldr_max (lo : Score) : ∀ l : List Score, l ≠ [] → (∀ x ∈ l, lo ≤ x) →
    lo ≤ l.foldr max ⊥
  | x :: l, _, h =>
    le_trans (h x (List.mem_cons_self x l)) (le_foldr_max (x :: l) x (List.mem_cons_self x l))

theorem le_foldr_min (lo : Score) : ∀ l : List Score, (∀ x ∈ l, lo ≤ x) → lo ≤ l.foldr min ⊤
  | [], _ => le_top
  | x :: l, h => by
    rw [List.foldr_cons]
    exact le_min (h x (List.mem_cons_self x l))
      (le_foldr_min lo l (fun y hy => h y (List.mem_cons_of_mem x hy)))

theorem foldr_min_le : ∀ l : List Score, ∀ x ∈ l, l.foldr min ⊤ ≤ x
  | x :: l, y, hy => by
    rw [List.foldr_cons]
    rcases List.mem_cons.1 hy with h | h
    · exact h ▸ min_le_left _ _
    · exact le_trans (min_le_right _ _) (foldr_min_le l y h)

theorem ub_foldr_min (u : Score) : ∀ l : List Score, l ≠ [] → (∀ x ∈ l, x ≤ u) →
    l.foldr min ⊤ ≤ u
  | x :: l, _, h =>
    le_trans (foldr_min_le (x :: l) x (List.mem_cons_self x l)) (h x (List.mem_cons_self x l))

/-! ## The stable descending sort -/

theorem insert_desc_perm {α : Type} (key : α → ℚ) (x : α) :
    ∀ l : List α, (insert_desc key x l).Perm (x :: l)
  | [] => List.Perm.refl _
  | y :: ys => by
    rw [insert_desc]
    split
    · exact List.Perm.refl _
    · exact ((insert_desc_perm key x ys).cons y).trans (List.Perm.swap x y ys)

theorem sort_desc_perm_aux {α : Type} (key : α → ℚ) :
    ∀ (l acc : List α),
      (List.foldl (fun acc x => insert_desc key x acc) acc l).Perm (acc ++ l)
  | [], acc => by simp
  | x :: l, acc => by
    rw [List.foldl_cons]
    exact ((sort_desc_perm_aux key l _).trans
      ((insert_desc_perm key x acc).append_right l)).trans List.perm_middle.symm

theorem sort_desc_perm {α : Type} (key : α → ℚ) (l : List α) :
    (sort_desc key l).Perm l := by
  simpa using sort_desc_perm_aux key l []

theorem insert_desc_sorted {α : Type} (key : α → ℚ) (x : α) :
    ∀ l : List α, l.Sorted (fun a b => key b ≤ key a) →
      (insert_desc key x l).Sorted (fun a b => key b ≤ key a)
  | [], _ => List.sorted_singleton x
  | y :: ys, h => by
    rw [insert_desc]
    rcases List.sorted_cons.1 h with ⟨hy, hys⟩
    split
    · rename_i hlt
      refine List.sorted_cons.2 ⟨?_, h⟩
      intro b hb
      rcases List.mem_cons.1 hb with rfl | hb
      · exact le_of_lt hlt
      · exact le_trans (hy b hb) (le_of_lt hlt)
    · rename_i hnlt
      refine List.sorted_cons.2 ⟨?_, insert_desc_sorted key x ys hys⟩
      intro b hb
      rcases List.mem_cons.1 ((insert_desc_perm key x ys).mem_iff.1 hb) with rfl | hb
      · exact le_of_not_lt hnlt
      · exact hy b hb

theorem sort_desc_sorted_aux {α : Type} (key : α → ℚ) :
    ∀ (l acc : List α), acc.Sorted (fun a b => key b ≤ key a) →
      (List.foldl (fun acc x => insert_desc key x acc) acc l).Sorted
        (fun a b => key b ≤ key a)
  | [], _, h => h
  | x :: l, acc, h => by
    rw [List.foldl_cons]
    exact sort_desc_sorted_aux key l _ (insert_desc_sorted key x acc h)

theorem sort_desc_sorted {α : Type} (key : α → ℚ) (l : List α) :
    (sort_desc key l).Sorted (fun a b => key b ≤ key a) :=
  sort_desc_sorted_aux key l [] (List.sorted_nil)

/-! ## Fail-soft alpha-beta versus minimax

The central lemma relates the value returned by the pruning loops to the
true minimax value through the classical fail-soft trichotomy: a value
at most alpha is an upper bound on the minimax value, a value above beta
is a lower bound, and a value inside the window is exact. -/

/-- The fail-soft contract of an alpha-beta search of a node with true
minimax value `mm` and window `(a, b)` returning `g`. -/
def KM (mm g a b : Score) : Prop :=
  (g ≤ a → mm ≤ g) ∧ (b < g → g ≤ mm) ∧ (a < g → g ≤ b → g = mm)

theorem KM_refl (g a b : Score) : KM g g a b :=
  ⟨fun _ => le_refl g, fun _ => le_refl g, fun _ _ => rfl⟩

theorem ab_max_loop_cons {β : Type} (L : ChessLib β) (rec : β → Score → Score → Score)
    (node : β) (m : Move) (ms : List Move) (v a b : Score) :
    ab_max_loop L rec node (m :: ms) v a b =
      (if b < max v (rec (play_move L node m) a b)
       then max v (rec (play_move L node m) a b)
       else ab_max_loop L rec node ms (max v (rec (play_move L node m) a b))
              (max a (max v (rec (play_move L node m) a b))) b) := rfl

theorem ab_min_loop_cons {β : Type} (L : ChessLib β) (rec : β → Score → Score → Score)
    (node : β) (m : Move) (ms : List Move) (v a b : Score) :
    ab_min_loop L rec node (m :: ms) v a b =
      (if min v (rec (play_move L node m) a b) ≤ a
       then min v (rec (play_move L node m) a b)
       else ab_min_loop L rec node ms (min v (rec (play_move L node m) a b)) a
              (min b (min v (rec (play_move L node m) a b)))) := rfl

theorem ab_max_loop_km {β : Type} (L : ChessLib β) (node : β)
    (rec : β → Score → Score → Score) (mmc : Move → Score) (a₀ b : Score)
    (hab : a₀ ≤ b)
    (hrec : ∀ m a' b', a' ≤ b' → KM (mmc m) (rec (play_move L node m) a' b') a' b') :
    ∀ ms : List Move, ∀ v a V : Score,
      a = max a₀ v → v ≤ b → (v ≤ a₀ → V ≤ v) → (a₀ < v → v = V) →
      KM (max V ((ms.map mmc).foldr max ⊥)) (ab_max_loop L rec node ms v a b) a₀ b := by
  intro ms
  induction ms with
  | nil =>
    intro v a V _ hvb h3 h4
    rw [ab_max_loop, List.map_nil, List.foldr_nil, max_eq_left bot_le]
    exact ⟨fun hva => h3 hva, fun hbv => absurd hbv (not_lt.2 hvb),
      fun hav _ => h4 hav⟩
  | cons m ms ih =>
    intro v a V ha hvb h3 h4
    obtain ⟨K1, K2, K3⟩ := hrec m a b (by rw [ha]; exact max_le hab hvb)
    rw [ab_max_loop_cons]
    set gc := rec (play_move L node m) a b with hgcdef
    set v' := max v gc with hvmaxdef
    by_cases hB : b < v'
    · rw [if_pos hB]
      have hvlt : v < gc := by
        by_contra hc
        push_neg at hc
        rw [hvmaxdef, max_eq_left hc] at hB
        exact absurd hB (not_lt.2 hvb)
      have hv' : v' = gc := max_eq_right (le_of_lt hvlt)
      refine ⟨fun h => absurd h (not_le.2 (lt_of_le_of_lt hab hB)), fun _ => ?_,
        fun _ h => absurd hB (not_lt.2 h)⟩
      have hgm : gc ≤ mmc m := K2 (hv' ▸ hB)
      rw [List.map_cons, List.foldr_cons, hv']
      exact le_trans hgm (le_trans (le_max_left _ _) (le_max_right _ _))
    · rw [if_neg hB]
      push_neg at hB
      have ha' : max a v' = max a₀ v' := by
        rw [ha, max_assoc, max_eq_right (le_max_left v gc)]
      have h3' : v' ≤ a₀ → max V (mmc m) ≤ v' := by
        intro h
        have hv : v ≤ a₀ := le_trans (le_max_left v gc) h
        have hgca : gc ≤ a := by
          rw [ha]
          exact le_trans (le_trans (le_max_right v gc) h) (le_max_left a₀ v)
        exact max_le (le_trans (h3 hv) (le_max_left v gc))
          (le_trans (K1 hgca) (le_max_right v gc))
      have h4' : a₀ < v' → v' = max V (mmc m) := by
        intro h
        by_cases hgcv : gc ≤ v
        · have hvv : v' = v := max_eq_left hgcv
          rw [hvv] at h ⊢
          have hVv : v = V := h4 h
          have hmmc : mmc m ≤ v := by
            have hgca : gc ≤ a := by rw [ha]; exact le_trans hgcv (le_max_right a₀ v)
            exact le_trans (K1 hgca) hgcv
          rw [← hVv]
          exact (max_eq_left hmmc).symm
        · push_neg at hgcv
          have hvv : v' = gc := max_eq_right (le_of_lt hgcv)
          have hagc : a < gc := by
            rw [ha]
            exact max_lt (hvv ▸ h) hgcv
          have hgcb : gc ≤ b := hvv ▸ hB
          have hmm : gc = mmc m := K3 hagc hgcb
          have hVgc : V ≤ gc := by
            rcases le_or_lt v a₀ with hva | hav
            · exact le_trans (h3 hva) (le_of_lt hgcv)
            · exact (h4 hav) ▸ (le_of_lt hgcv)
          rw [hvv, hmm]
          exact (max_eq_right (hmm ▸ hVgc)).symm
      have hres := ih v' (max a v') (max V (mmc m)) ha' hB h3' h4'
      rw [List.map_cons, List.foldr_cons, ← max_assoc]
      exact hres

theorem ab_min_loop_km {β : Type} (L : ChessLib β) (node : β)
    (rec : β → Score → Score → Score) (mmc : Move → Score) (a b₀ : Score)
    (hab : a ≤ b₀)
    (hrec : ∀ m a' b', a' ≤ b' → KM (mmc m) (rec (play_move L node m) a' b') a' b') :
    ∀ ms : List Move, ∀ v b V : Score,
      b = min b₀ v → a ≤ v → (v ≤ a → V ≤ v) → (a < v → v ≤ b₀ → v = V) →
      (b₀ < v → v ≤ V) →
      KM (min V ((ms.map mmc).foldr min ⊤)) (ab_min_loop L rec node ms v a b) a b₀ := by
  intro ms
  induction ms with
  | nil =>
    intro v b V _ hav h3 h4 h5
    rw [ab_min_loop, List.map_nil, List.foldr_nil, min_eq_left le_top]
    exact ⟨fun hva => h3 hva, fun hbv => h5 hbv, fun hav2 hvb => h4 hav2 hvb⟩
  | cons m ms ih =>
    intro v b V hb hav h3 h4 h5
    obtain ⟨K1, K2, K3⟩ := hrec m a b (by rw [hb]; exact le_min hab hav)
    rw [ab_min_loop_cons]
    set gc := rec (play_move L node m) a b with hgcdef
    set v' := min v gc with hvmindef
    by_cases hA : v' ≤ a
    · rw [if_pos hA]
      refine ⟨fun _ => ?_, fun hbv => absurd hbv (not_lt.2 (le_trans hA hab)),
        fun hav2 _ => absurd hav2 (not_lt.2 hA)⟩
      rw [List.map_cons, List.foldr_cons]
      rcases le_total gc v with hgcv | hvgc
      · have hvv : v' = gc := min_eq_right hgcv
        have hgm : mmc m ≤ gc := K1 (hvv ▸ hA)
        rw [hvv]
        exact le_trans (le_trans (min_le_right V _) (min_le_left _ _)) hgm
      · have hvv : v' = v := min_eq_left hvgc
        rw [hvv]
        exact le_trans (min_le_left V _) (h3 (hvv ▸ hA))
    · push_neg at hA
      rw [if_neg (not_le.2 hA)]
      have hb' : min b v' = min b₀ v' := by
        rw [hb, min_assoc, min_eq_right (min_le_left v gc)]
      have h3' : v' ≤ a → min V (mmc m) ≤ v' := fun h => absurd h (not_le.2 hA)
      have h4' : a < v' → v' ≤ b₀ → v' = min V (mmc m) := by
        intro _ hvb
        rcases le_total gc v with hgcv | hvgc
        · have hvv : v' = gc := min_eq_right hgcv
          have hagc : a < gc := hvv ▸ hA
          have hgcb : gc ≤ b := by rw [hb]; exact le_min (hvv ▸ hvb) hgcv
          have hmm : gc = mmc m := K3 hagc hgcb
          have hVgc : gc ≤ V := by
            rcases le_or_lt v b₀ with hvb0 | hbv
            · exact (h4 (lt_of_lt_of_le hagc hgcv) hvb0) ▸ hgcv
            · exact le_trans hgcv (h5 hbv)
          rw [hvv, hmm]
          exact (min_eq_right (hmm ▸ hVgc)).symm
        · have hvv : v' = v := min_eq_left hvgc
          rw [hvv] at hA hvb ⊢
          have hVv : v = V := h4 hA hvb
          have hvmmc : v ≤ mmc m := by
            rcases le_or_lt gc b with hgcb | hbgc
            · have hagc : a < gc := lt_of_lt_of_le hA hvgc
              exact (K3 hagc hgcb) ▸ hvgc
            · exact le_trans hvgc (K2 hbgc)
          rw [← hVv]
          exact (min_eq_left hvmmc).symm
      have h5' : b₀ < v' → v' ≤ min V (mmc m) := by
        intro hbv'
        have hv'v : v' ≤ v := min_le_left v gc
        have hbv : b₀ < v := lt_of_lt_of_le hbv' hv'v
        have hbb0 : b = b₀ := by rw [hb]; exact min_eq_left (le_of_lt hbv)
        have hbgc : b < gc := by
          rw [hbb0]
          exact lt_of_lt_of_le hbv' (min_le_right v gc)
        exact le_min (le_trans hv'v (h5 hbv)) (le_trans (min_le_right v gc) (K2 hbgc))
      have hres := ih v' (min b v') (min V (mmc m)) hb' (le_of_lt hA) h3' h4' h5'
      rw [List.map_cons, List.foldr_cons, ← min_assoc]
      exact hres

theorem alphabeta_seq_succ {β : Type} (L : ChessLib β) (c : Color) (d : Nat)
    (node : β) (maximizing : Bool) (a b : Score) :
    alphabeta_seq L c (d + 1) node maximizing a b =
      (if (L.outcome node).isSome then qS (get_heuristic L node c)
       else if maximizing then
        ab_max_loop L (fun child a' b' => alphabeta_seq L c d child false a' b')
          node (get_ordered_legal_moves L node) ⊥ a b
       else
        ab_min_loop L (fun child a' b' => alphabeta_seq L c d child true a' b')
          node (get_ordered_legal_moves L node) ⊤ a b) := rfl

theorem minimax_spec_succ {β : Type} (L : ChessLib β) (c : Color) (d : Nat)
    (node : β) (maximizing : Bool) :
    minimax_spec L c (d + 1) node maximizing =
      (if (L.outcome node).isSome then qS (get_heuristic L node c)
       else if maximizing then
        ((L.legal_moves node).map
          (fun m => minimax_spec L c d (L.push node m) (!maximizing))).foldr max ⊥
       else
        ((L.legal_moves node).map
          (fun m => minimax_spec L c d (L.push node m) (!maximizing))).foldr min ⊤) := by
  cases maximizing <;> by_cases h : (L.outcome node).isSome <;> simp [minimax_spec, h]

theorem alphabeta_par_succ {β : Type} (L : ChessLib β) (c : Color) (d : Nat)
    (node : β) (maximizing : Bool) (a b : Score) :
    alphabeta_par L c (d + 1) node maximizing a b =
      (if (L.outcome node).isSome then qS (get_heuristic L node c)
       else if maximizing then
        ((get_ordered_legal_moves L node).map
          (fun m => alphabeta_seq L c d (play_move L node m) (!maximizing) a b)).foldr max ⊥
       else
        ((get_ordered_legal_moves L node).map
          (fun m => alphabeta_seq L c d (play_move L node m) (!maximizing) a b)).foldr min ⊤) := by
  cases maximizing <;> by_cases h : (L.outcome node).isSome <;> simp [alphabeta_par, play_move, h]

theorem ordered_map_foldr_max {β : Type} (L : ChessLib β) (node : β) (f : Move → Score) :
    ((get_ordered_legal_moves L node).map f).foldr max ⊥ =
      ((L.legal_moves node).map f).foldr max ⊥ :=
  List.Perm.foldr_eq ((sort_desc_perm _ _).map f) ⊥

theorem ordered_map_foldr_min {β : Type} (L : ChessLib β) (node : β) (f : Move → Score) :
    ((get_ordered_legal_moves L node).map f).foldr min ⊤ =
      ((L.legal_moves node).map f).foldr min ⊤ :=
  List.Perm.foldr_eq ((sort_desc_perm _ _).map f) ⊤

theorem alphabeta_seq_km {β : Type} (L : ChessLib β) (c : Color) :
    ∀ (d : Nat) (node : β) (maximizing : Bool) (a b : Score), a ≤ b →
      KM (minimax_spec L c d node maximizing)
        (alphabeta_seq L c d node maximizing a b) a b := by
  intro d
  induction d with
  | zero => intro node maximizing a b _; exact KM_refl _ a b
  | succ d ihd =>
    intro node maximizing a b hab
    rw [alphabeta_seq_succ, minimax_spec_succ]
    by_cases hOut : (L.outcome node).isSome
    · rw [if_pos hOut, if_pos hOut]
      exact KM_refl _ a b
    · rw [if_neg hOut, if_neg hOut]
      cases maximizing with
      | true =>
        rw [if_pos rfl, if_pos rfl]
        have hres := ab_max_loop_km L node
          (fun child a' b' => alphabeta_seq L c d child false a' b')
          (fun m => minimax_spec L c d (L.push node m) false) a b hab
          (fun m a' b' h => ihd (L.push node m) false a' b' h)
          (get_ordered_legal_moves L node) ⊥ a ⊥
          (max_eq_left bot_le).symm bot_le (fun _ => le_refl ⊥)
          (fun h => absurd h (not_lt_bot))
        rw [max_eq_right bot_le, ordered_map_foldr_max] at hres
        exact hres
      | false =>
        rw [if_neg (by simp), if_neg (by simp)]
        have hres := ab_min_loop_km L node
          (fun child a' b' => alphabeta_seq L c d child true a' b')
          (fun m => minimax_spec L c d (L.push node m) true) a b hab
          (fun m a' b' h => ihd (L.push node m) true a' b' h)
          (get_ordered_legal_moves L node) ⊤ b ⊤
          (min_eq_left le_top).symm le_top (fun _ => le_top)
          (fun _ _ => rfl) (fun _ => le_refl ⊤)
        rw [min_eq_right le_top, ordered_map_foldr_min] at hres
        exact hres

theorem alphabeta_seq_full_window {β : Type} (L : ChessLib β) (c : Color) (d : Nat)
    (node : β) (maximizing : Bool) :
    alphabeta_seq L c d node maximizing ⊥ ⊤ = minimax_spec L c d node maximizing := by
  obtain ⟨K1, _, K3⟩ := alphabeta_seq_km L c d node maximizing ⊥ ⊤ bot_le
  rcases le_or_lt (alphabeta_seq L c d node maximizing ⊥ ⊤) ⊥ with h | h
  · have hg : alphabeta_seq L c d node maximizing ⊥ ⊤ = ⊥ := le_bot_iff.1 h
    have hmm : minimax_spec L c d node maximizing = ⊥ := le_bot_iff.1 (le_trans (K1 h) h)
    rw [hg, hmm]
  · exact K3 h le_top

theorem alphabeta_par_full_window {β : Type} (L : ChessLib β) (c : Color) (d : Nat)
    (node : β) (maximizing : Bool) :
    alphabeta_par L c d node maximizing ⊥ ⊤ = minimax_spec L c d node maximizing := by
  cases d with
  | zero => rfl
  | succ d =>
    rw [alphabeta_par_succ, minimax_spec_succ]
    by_cases hOut : (L.outcome node).isSome
    · rw [if_pos hOut, if_pos hOut]
    · rw [if_neg hOut, if_neg hOut]
      have hmap : (get_ordered_legal_moves L node).map
            (fun m => alphabeta_seq L c d (play_move L node m) (!maximizing) ⊥ ⊤)
          = (get_ordered_legal_moves L node).map
            (fun m => minimax_spec L c d (L.push node m) (!maximizing)) :=
        congrArg (fun f => (get_ordered_legal_moves L node).map f)
          (funext fun m => alphabeta_seq_full_window L c d (play_move L node m) (!maximizing))
      cases maximizing with
      | true =>
        rw [if_pos rfl, if_pos rfl, hmap, ordered_map_foldr_max]
      | false =>
        rw [if_neg (by simp), if_neg (by simp), hmap, ordered_map_foldr_min]

/-! ## Bounds on the evaluator and on the search -/

theorem get_value_nonneg (p : Piece) : 0 ≤ get_value p := by
  rcases p with ⟨pt, pc⟩
  cases pt <;> norm_num [get_value]

theorem get_value_le_nine (p : Piece) : get_value p ≤ 9 := by
  rcases p with ⟨pt, pc⟩
  cases pt <;> norm_num [get_value]

theorem king_pos_score_bounds {β : Type} (L : ChessLib β) (bd : β) (c : Color) :
    0 ≤ king_pos_score L bd c ∧ king_pos_score L bd c ≤ 0.1 := by
  unfold king_pos_score
  cases L.king bd c with
  | none => norm_num
  | some sq => dsimp only; constructor <;> split_ifs <;> norm_num

theorem center_term_bounds {β : Type} (L : ChessLib β) (bd : β) (c : Color) (sq : Nat)
    (hat : L.attackers_len bd c sq ≤ 16) :
    -0.4 ≤ center_term L bd c sq ∧ center_term L bd c sq ≤ 2.4 := by
  unfold center_term
  cases L.piece_at bd sq with
  | none =>
    have h0 : (0 : ℚ) ≤ 0.15 * (L.attackers_len bd c sq : ℚ) := by positivity
    have h1 : (L.attackers_len bd c sq : ℚ) ≤ 16 := by exact_mod_cast hat
    dsimp only
    constructor <;> nlinarith
  | some p => dsimp only; constructor <;> split_ifs <;> norm_num

theorem center_score_bounds {β : Type} (L : ChessLib β) (bd : β) (c : Color)
    (hat : ∀ sq ∈ center_squares, L.attackers_len bd c sq ≤ 16) :
    -1.6 ≤ center_score L bd c ∧ center_score L bd c ≤ 9.6 := by
  have h1 := center_term_bounds L bd c 28 (hat 28 (by norm_num [center_squares]))
  have h2 := center_term_bounds L bd c 36 (hat 36 (by norm_num [center_squares]))
  have h3 := center_term_bounds L bd c 27 (hat 27 (by norm_num [center_squares]))
  have h4 := center_term_bounds L bd c 35 (hat 35 (by norm_num [center_squares]))
  unfold center_score center_squares
  simp only [List.map_cons, List.map_nil, List.sum_cons, List.sum_nil]
  constructor <;> linarith [h1.1, h1.2, h2.1, h2.2, h3.1, h3.2, h4.1, h4.2]

theorem range8_sum_bounds (f : Nat → ℚ) (lo hi : ℚ)
    (h : ∀ x, lo ≤ f x ∧ f x ≤ hi) :
    8 * lo ≤ ((List.range 8).map f).sum ∧ ((List.range 8).map f).sum ≤ 8 * hi := by
  constructor
  · have := le_sum_map f lo (List.range 8) (fun x _ => (h x).1)
    simpa [mul_comm] using this
  · have := sum_map_le f hi (List.range 8) (fun x _ => (h x).2)
    simpa [mul_comm] using this

theorem doubled_score_bounds {β : Type} (L : ChessLib β) (bd : β) (c : Color) :
    -2.4 ≤ doubled_score L bd c ∧ doubled_score L bd c ≤ 0 := by
  have h := range8_sum_bounds
    (fun f => if 1 < pawns_per_column L bd c f then (-0.3 : ℚ) else 0) (-0.3) 0
    (fun x => by refine ⟨?_, ?_⟩ <;> dsimp only <;> split_ifs <;> norm_num)
  unfold doubled_score
  constructor <;> linarith [h.1, h.2]

theorem mid_passed_score_bounds {β : Type} (L : ChessLib β) (bd : β) (c : Color) :
    0 ≤ mid_passed_score L bd c ∧ mid_passed_score L bd c ≤ 1.6 := by
  have h := range8_sum_bounds
    (fun f => if 0 < pawns_per_column L bd c f ∧ pawns_per_column L bd (!c) f = 0
      then (0.2 : ℚ) else 0) 0 0.2
    (fun x => by refine ⟨?_, ?_⟩ <;> dsimp only <;> split_ifs <;> norm_num)
  unfold mid_passed_score
  constructor <;> linarith [h.1, h.2]

theorem mid_opp_passed_score_bounds {β : Type} (L : ChessLib β) (bd : β) (c : Color) :
    -1.6 ≤ mid_opp_passed_score L bd c ∧ mid_opp_passed_score L bd c ≤ 0 := by
  have h := range8_sum_bounds
    (fun f => if 0 < pawns_per_column L bd (!c) f ∧ pawns_per_column L bd c f = 0
      then (-0.2 : ℚ) else 0) (-0.2) 0
    (fun x => by refine ⟨?_, ?_⟩ <;> dsimp only <;> split_ifs <;> norm_num)
  unfold mid_opp_passed_score
  constructor <;> linarith [h.1, h.2]

theorem mid_isolated_score_bounds {β : Type} (L : ChessLib β) (bd : β) (c : Color) :
    -1.6 ≤ mid_isolated_score L bd c ∧ mid_isolated_score L bd c ≤ 0 := by
  have h := range8_sum_bounds
    (fun f =>
      if f = 0 then
        (if 0 < pawns_per_column L bd c 0 ∧ pawns_per_column L bd c 1 = 0
         then (-0.15 : ℚ) else 0)
      else if f = 7 then
        (if 0 < pawns_per_column L bd c 7 ∧ pawns_per_column L bd c 6 = 0
         then (-0.15 : ℚ) else 0)
      else
        (if 0 < pawns_per_column L bd c f ∧ pawns_per_column L bd c (f - 1) = 0
             ∧ pawns_per_column L bd c (f + 1) = 0
         then (-0.2 : ℚ) else 0)) (-0.2) 0
    (fun x => by refine ⟨?_, ?_⟩ <;> dsimp only <;> split_ifs <;> norm_num)
  unfold mid_isolated_score
  constructor <;> linarith [h.1, h.2]

theorem end_passed_score_bounds {β : Type} (L : ChessLib β) (bd : β) (c : Color) :
    0 ≤ end_passed_score L bd c ∧ end_passed_score L bd c ≤ 8 := by
  have h := range8_sum_bounds
    (fun f => if 0 < pawns_per_column L bd c f ∧ pawns_per_column L bd (!c) f = 0
      then (1 : ℚ) else 0) 0 1
    (fun x => by refine ⟨?_, ?_⟩ <;> dsimp only <;> split_ifs <;> norm_num)
  unfold end_passed_score
  constructor <;> linarith [h.1, h.2]

theorem end_opp_passed_score_bounds {β : Type} (L : ChessLib β) (bd : β) (c : Color) :
    -8 ≤ end_opp_passed_score L bd c ∧ end_opp_passed_score L bd c ≤ 0 := by
  have h := range8_sum_bounds
    (fun f => if 0 < pawns_per_column L bd (!c) f ∧ pawns_per_column L bd c f = 0
      then (-1 : ℚ) else 0) (-1) 0
    (fun x => by refine ⟨?_, ?_⟩ <;> dsimp only <;> split_ifs <;> norm_num)
  unfold end_opp_passed_score
  constructor <;> linarith [h.1, h.2]

theorem development_score_bounds {β : Type} (L : ChessLib β) (bd : β) (c : Color) :
    -0.4 ≤ development_score L bd c ∧ development_score L bd c ≤ 0 := by
  have hterm : ∀ sq : Nat,
      -0.1 ≤ (match L.piece_at bd sq with
        | none => 0
        | some p =>
          if p.color = c ∧ (p.piece_type = PieceType.bishop ∨ p.piece_type = PieceType.knight)
          then (-0.1 : ℚ) else 0) ∧
      (match L.piece_at bd sq with
        | none => 0
        | some p =>
          if p.color = c ∧ (p.piece_type = PieceType.bishop ∨ p.piece_type = PieceType.knight)
          then (-0.1 : ℚ) else 0) ≤ 0 := by
    intro sq
    rcases L.piece_at bd sq with _ | p <;> dsimp only <;>
      refine ⟨?_, ?_⟩ <;> try split_ifs
    all_goals norm_num
  unfold development_score
  by_cases hc : c = WHITE
  · rw [if_pos hc]
    simp only [List.map_cons, List.map_nil, List.sum_cons, List.sum_nil]
    constructor <;>
      linarith [(hterm 1).1, (hterm 1).2, (hterm 6).1, (hterm 6).2, (hterm 2).1,
        (hterm 2).2, (hterm 5).1, (hterm 5).2]
  · rw [if_neg hc]
    simp only [List.map_cons, List.map_nil, List.sum_cons, List.sum_nil]
    constructor <;>
      linarith [(hterm 57).1, (hterm 57).2, (hterm 62).1, (hterm 62).2, (hterm 58).1,
        (hterm 58).2, (hterm 61).1, (hterm 61).2]

theorem queen_home_score_bounds {β : Type} (L : ChessLib β) (bd : β) (c : Color) :
    0 ≤ queen_home_score L bd c ∧ queen_home_score L bd c ≤ 0.15 := by
  unfold queen_home_score
  rcases L.pieces bd PieceType.queen c with _ | ⟨q, _ | ⟨r, t⟩⟩ <;> dsimp only
  · norm_num
  · constructor <;> split_ifs <;> norm_num
  · norm_num

theorem king_activity_score_bounds {β : Type} (L : ChessLib β) (bd : β)
    (hlm : (L.legal_moves bd).length ≤ 218) :
    0 ≤ king_activity_score L bd ∧ king_activity_score L bd ≤ 21.8 := by
  have hterm : ∀ m : Move,
      (0 : ℚ) ≤ (match L.piece_at bd m.from_square with
        | none => 0
        | some p => if p.piece_type = PieceType.king then (0.1 : ℚ) else 0) ∧
      (match L.piece_at bd m.from_square with
        | none => 0
        | some p => if p.piece_type = PieceType.king then (0.1 : ℚ) else 0) ≤ 0.1 := by
    intro m
    rcases L.piece_at bd m.from_square with _ | p <;> dsimp only <;>
      refine ⟨?_, ?_⟩ <;> try split_ifs
    all_goals norm_num
  have hlen : ((L.legal_moves bd).length : ℚ) ≤ 218 := by exact_mod_cast hlm
  have hlen0 : (0 : ℚ) ≤ ((L.legal_moves bd).length : ℚ) := Nat.cast_nonneg _
  have hup := sum_map_le
    (fun m : Move => (match L.piece_at bd m.from_square with
      | none => 0
      | some p => if p.piece_type = PieceType.king then (0.1 : ℚ) else 0)) 0.1
    (L.legal_moves bd) (fun m _ => (hterm m).2)
  have hlo := le_sum_map
    (fun m : Move => (match L.piece_at bd m.from_square with
      | none => 0
      | some p => if p.piece_type = PieceType.king then (0.1 : ℚ) else 0)) 0
    (L.legal_moves bd) (fun m _ => (hterm m).1)
  unfold king_activity_score
  constructor
  · linarith [hlo]
  · nlinarith [hup, hlen, hlen0]

theorem agent_material_bounds {β : Type} (L : ChessLib β) (bd : β) (c : Color) :
    0 ≤ agent_material L bd c ∧
      agent_material L bd c ≤ ((L.piece_map bd).length : ℚ) * 9 := by
  have hterm : ∀ pr : Nat × Piece,
      (0 : ℚ) ≤ (if pr.2.color = c then get_value pr.2 else 0) ∧
      (if pr.2.color = c then get_value pr.2 else 0) ≤ 9 := by
    intro pr
    split_ifs
    · exact ⟨get_value_nonneg pr.2, get_value_le_nine pr.2⟩
    · norm_num
  constructor
  · have := le_sum_map (fun pr : Nat × Piece => if pr.2.color = c then get_value pr.2 else 0)
      0 (L.piece_map bd) (fun pr _ => (hterm pr).1)
    simpa [agent_material] using this
  · exact sum_map_le _ 9 (L.piece_map bd) (fun pr _ => (hterm pr).2)

theorem opponent_material_bounds {β : Type} (L : ChessLib β) (bd : β) (c : Color) :
    0 ≤ opponent_material L bd c ∧
      opponent_material L bd c ≤ ((L.piece_map bd).length : ℚ) * 9 := by
  have hterm : ∀ pr : Nat × Piece,
      (0 : ℚ) ≤ (if pr.2.color = c then 0 else get_value pr.2) ∧
      (if pr.2.color = c then 0 else get_value pr.2) ≤ 9 := by
    intro pr
    split_ifs
    · norm_num
    · exact ⟨get_value_nonneg pr.2, get_value_le_nine pr.2⟩
  constructor
  · have := le_sum_map (fun pr : Nat × Piece => if pr.2.color = c then 0 else get_value pr.2)
      0 (L.piece_map bd) (fun pr _ => (hterm pr).1)
    simpa [opponent_material] using this
  · exact sum_map_le _ 9 (L.piece_map bd) (fun pr _ => (hterm pr).2)

theorem material_diff_bounds {β : Type} (L : ChessLib β) (bd : β) (c : Color)
    (h32 : (L.piece_map bd).length ≤ 32) :
    -288 ≤ material_diff L bd c ∧ material_diff L bd c ≤ 288 := by
  have hlen : ((L.piece_map bd).length : ℚ) ≤ 32 := by exact_mod_cast h32
  have ha := agent_material_bounds L bd c
  have ho := opponent_material_bounds L bd c
  unfold material_diff
  constructor <;> nlinarith [ha.1, ha.2, ho.1, ho.2]

theorem get_heuristic_live {β : Type} (L : ChessLib β) (bd : β) (c : Color)
    (h1 : L.outcome bd = none) (h2 : L.can_claim_draw bd = false) :
    get_heuristic L bd c =
      positional_score L bd c + phase_weight (game_phase L bd) * material_diff L bd c := by
  unfold get_heuristic positional_score
  rw [h1, h2]
  simp only [Bool.false_eq_true, if_false]

theorem get_heuristic_decided {β : Type} (L : ChessLib β) (bd : β) (c : Color) (oc : Outcome)
    (h : L.outcome bd = some oc) :
    get_heuristic L bd c =
      (match oc.winner with
       | none => 0.5
       | some w => if w = c then 1000000 else -1000000) := by
  unfold get_heuristic
  rw [h]

theorem get_heuristic_claim_draw {β : Type} (L : ChessLib β) (bd : β) (c : Color)
    (h1 : L.outcome bd = none) (h2 : L.can_claim_draw bd = true) :
    get_heuristic L bd c = 0.5 := by
  unfold get_heuristic
  rw [h1, h2]
  rfl

theorem positional_score_bounds {β : Type} (L : ChessLib β) (bd : β) (c : Color)
    (hat : ∀ col : Color, ∀ sq ∈ center_squares, L.attackers_len bd col sq ≤ 16)
    (hlm : (L.legal_moves bd).length ≤ 218) :
    -15 ≤ positional_score L bd c ∧ positional_score L bd c ≤ 35 := by
  have hkp := king_pos_score_bounds L bd c
  have hcs := center_score_bounds L bd c (hat c)
  have hds := doubled_score_bounds L bd c
  have hdev := development_score_bounds L bd c
  have hqh := queen_home_score_bounds L bd c
  have hmp := mid_passed_score_bounds L bd c
  have hmo := mid_opp_passed_score_bounds L bd c
  have hmi := mid_isolated_score_bounds L bd c
  have hep := end_passed_score_bounds L bd c
  have heo := end_opp_passed_score_bounds L bd c
  have hka := king_activity_score_bounds L bd hlm
  unfold positional_score
  cases hph : game_phase L bd <;> simp only [hph, reduceCtorEq, or_self, or_false,
      false_or, if_true, if_false, reduceIte] <;>
    constructor <;>
    linarith [hkp.1, hkp.2, hcs.1, hcs.2, hds.1, hds.2, hdev.1, hdev.2, hqh.1,
      hqh.2, hmp.1, hmp.2, hmo.1, hmo.2, hmi.1, hmi.2, hep.1, hep.2, heo.1, heo.2,
      hka.1, hka.2]

theorem get_heuristic_bounds {β : Type} (L : ChessLib β) (bd : β) (c : Color)
    (h32 : (L.piece_map bd).length ≤ 32)
    (hat : ∀ col : Color, ∀ sq ∈ center_squares, L.attackers_len bd col sq ≤ 16)
    (hlm : (L.legal_moves bd).length ≤ 218) :
    -1000000 ≤ get_heuristic L bd c ∧ get_heuristic L bd c ≤ 1000000 := by
  cases ho : L.outcome bd with
  | some oc =>
    rw [get_heuristic_decided L bd c oc ho]
    rcases oc with ⟨_ | w⟩ <;> dsimp only
    · norm_num
    · constructor <;> split_ifs <;> norm_num
  | none =>
    cases hcd : L.can_claim_draw bd with
    | true =>
      rw [get_heuristic_claim_draw L bd c ho hcd]
      norm_num
    | false =>
      rw [get_heuristic_live L bd c ho hcd]
      have hps := positional_score_bounds L bd c hat hlm
      have hmd := material_diff_bounds L bd c h32
      cases hph : game_phase L bd <;> simp only [hph, phase_weight] <;>
        constructor <;> nlinarith [hps.1, hps.2, hmd.1, hmd.2]

theorem qS_le_qS {p q : ℚ} : qS p ≤ qS q ↔ p ≤ q := by
  unfold qS
  rw [WithBot.coe_le_coe, WithTop.coe_le_coe]

theorem ab_max_loop_le {β : Type} (L : ChessLib β) (rec : β → Score → Score → Score)
    (node : β) (u : Score)
    (hrec : ∀ m a' b', rec (play_move L node m) a' b' ≤ u) :
    ∀ (ms : List Move) (v a b : Score), v ≤ u → ab_max_loop L rec node ms v a b ≤ u := by
  intro ms
  induction ms with
  | nil => intro v a b hv; exact hv
  | cons m ms ih =>
    intro v a b hv
    rw [ab_max_loop_cons]
    split_ifs
    · exact max_le hv (hrec m a b)
    · exact ih _ _ _ (max_le hv (hrec m a b))

theorem lb_ab_max_loop {β : Type} (L : ChessLib β) (rec : β → Score → Score → Score)
    (node : β) (lo : Score)
    (hrec : ∀ m a' b', lo ≤ rec (play_move L node m) a' b') :
    ∀ (ms : List Move) (v a b : Score), (lo ≤ v ∨ ms ≠ []) →
      lo ≤ ab_max_loop L rec node ms v a b := by
  intro ms
  induction ms with
  | nil =>
    intro v a b h
    rcases h with h | h
    · exact h
    · exact absurd rfl h
  | cons m ms ih =>
    intro v a b _
    rw [ab_max_loop_cons]
    split_ifs
    · exact le_trans (hrec m a b) (le_max_right _ _)
    · exact ih _ _ _ (Or.inl (le_trans (hrec m a b) (le_max_right _ _)))

theorem ab_min_loop_ge {β : Type} (L : ChessLib β) (rec : β → Score → Score → Score)
    (node : β) (lo : Score)
    (hrec : ∀ m a' b', lo ≤ rec (play_move L node m) a' b') :
    ∀ (ms : List Move) (v a b : Score), lo ≤ v → lo ≤ ab_min_loop L rec node ms v a b := by
  intro ms
  induction ms with
  | nil => intro v a b hv; exact hv
  | cons m ms ih =>
    intro v a b hv
    rw [ab_min_loop_cons]
    split_ifs
    · exact le_min hv (hrec m a b)
    · exact ih _ _ _ (le_min hv (hrec m a b))

theorem ub_ab_min_loop {β : Type} (L : ChessLib β) (rec : β → Score → Score → Score)
    (node : β) (u : Score)
    (hrec : ∀ m a' b', rec (play_move L node m) a' b' ≤ u) :
    ∀ (ms : List Move) (v a b : Score), (v ≤ u ∨ ms ≠ []) →
      ab_min_loop L rec node ms v a b ≤ u := by
  intro ms
  induction ms with
  | nil =>
    intro v a b h
    rcases h with h | h
    · exact h
    · exact absurd rfl h
  | cons m ms ih =>
    intro v a b _
    rw [ab_min_loop_cons]
    split_ifs
    · exact le_trans (min_le_right _ _) (hrec m a b)
    · exact ih _ _ _ (Or.inl (le_trans (min_le_right _ _) (hrec m a b)))

theorem ordered_ne_nil {β : Type} (L : ChessLib β) (node : β)
    (h : L.legal_moves node ≠ []) : get_ordered_legal_moves L node ≠ [] := by
  intro h0
  apply h
  have hp : (L.legal_moves node).Perm [] := by
    rw [← h0]
    exact (sort_desc_perm _ _).symm
  exact hp.eq_nil

theorem alphabeta_seq_bounds {β : Type} (L : ChessLib β) (c : Color) (lo hi : ℚ)
    (Hheur : ∀ bd : β, lo ≤ get_heuristic L bd c ∧ get_heuristic L bd c ≤ hi)
    (Hne : ∀ bd : β, L.outcome bd = none → L.legal_moves bd ≠ []) :
    ∀ (d : Nat) (node : β) (maximizing : Bool) (a b : Score),
      qS lo ≤ alphabeta_seq L c d node maximizing a b ∧
      alphabeta_seq L c d node maximizing a b ≤ qS hi := by
  intro d
  induction d with
  | zero =>
    intro node maximizing a b
    exact ⟨qS_le_qS.2 (Hheur node).1, qS_le_qS.2 (Hheur node).2⟩
  | succ d ihd =>
    intro node maximizing a b
    rw [alphabeta_seq_succ]
    by_cases hOut : (L.outcome node).isSome
    · rw [if_pos hOut]
      exact ⟨qS_le_qS.2 (Hheur node).1, qS_le_qS.2 (Hheur node).2⟩
    · rw [if_neg hOut]
      have hne : get_ordered_legal_moves L node ≠ [] :=
        ordered_ne_nil L node (Hne node (Option.not_isSome_iff_eq_none.1 hOut))
      cases maximizing with
      | true =>
        rw [if_pos rfl]
        constructor
        · exact lb_ab_max_loop L _ node (qS lo)
            (fun m a' b' => (ihd (play_move L node m) false a' b').1) _ ⊥ a b
            (Or.inr hne)
        · exact ab_max_loop_le L _ node (qS hi)
            (fun m a' b' => (ihd (play_move L node m) false a' b').2) _ ⊥ a b bot_le
      | false =>
        rw [if_neg (by simp)]
        constructor
        · exact ab_min_loop_ge L _ node (qS lo)
            (fun m a' b' => (ihd (play_move L node m) true a' b').1) _ ⊤ a b le_top
        · exact ub_ab_min_loop L _ node (qS hi)
            (fun m a' b' => (ihd (play_move L node m) true a' b').2) _ ⊤ a b
            (Or.inr hne)

theorem alphabeta_par_bounds {β : Type} (L : ChessLib β) (c : Color) (lo hi : ℚ)
    (Hheur : ∀ bd : β, lo ≤ get_heuristic L bd c ∧ get_heuristic L bd c ≤ hi)
    (Hne : ∀ bd : β, L.outcome bd = none → L.legal_moves bd ≠ []) :
    ∀ (d : Nat) (node : β) (maximizing : Bool) (a b : Score),
      qS lo ≤ alphabeta_par L c d node maximizing a b ∧
      alphabeta_par L c d node maximizing a b ≤ qS hi := by
  intro d
  cases d with
  | zero =>
    intro node maximizing a b
    exact ⟨qS_le_qS.2 (Hheur node).1, qS_le_qS.2 (Hheur node).2⟩
  | succ d =>
    intro node maximizing a b
    rw [alphabeta_par_succ]
    by_cases hOut : (L.outcome node).isSome
    · rw [if_pos hOut]
      exact ⟨qS_le_qS.2 (Hheur node).1, qS_le_qS.2 (Hheur node).2⟩
    · rw [if_neg hOut]
      have hne : get_ordered_legal_moves L node ≠ [] :=
        ordered_ne_nil L node (Hne node (Option.not_isSome_iff_eq_none.1 hOut))
      have hmapne : (get_ordered_legal_moves L node).map
          (fun m => alphabeta_seq L c d (play_move L node m) (!maximizing) a b) ≠ [] := by
        intro h0
        exact hne (List.map_eq_nil_iff.1 h0)
      have helem : ∀ x ∈ (get_ordered_legal_moves L node).map
          (fun m => alphabeta_seq L c d (play_move L node m) (!maximizing) a b),
          qS lo ≤ x ∧ x ≤ qS hi := by
        intro x hx
        rcases List.mem_map.1 hx with ⟨m, _, rfl⟩
        exact alphabeta_seq_bounds L c lo hi Hheur Hne d (play_move L node m)
          (!maximizing) a b
      cases maximizing with
      | true =>
        rw [if_pos rfl]
        exact ⟨lb_foldr_max (qS lo) _ hmapne (fun x hx => (helem x hx).1),
          foldr_max_le (qS hi) _ (fun x hx => (helem x hx).2)⟩
      | false =>
        rw [if_neg (by simp)]
        exact ⟨le_foldr_min (qS lo) _ (fun x hx => (helem x hx).1),
          ub_foldr_min (qS hi) _ hmapne (fun x hx => (helem x hx).2)⟩

/-! ## Material and phase: bridging the code to the specification -/

theorem get_value_eq_spec (p : Piece) : get_value p = spec_piece_value p.piece_type := by
  rcases p with ⟨pt, pc⟩
  cases pt <;> rfl

theorem sum_if_color_eq_filter (c : Color) :
    ∀ l : List (Nat × Piece),
      (l.map (fun pr => if pr.2.color = c then get_value pr.2 else 0)).sum =
        ((l.filter (fun pr => pr.2.color = c)).map
          (fun pr => spec_piece_value pr.2.piece_type)).sum
  | [] => by simp
  | pr :: l => by
    rw [List.map_cons, List.sum_cons, List.filter_cons]
    rw [sum_if_color_eq_filter c l]
    by_cases h : pr.2.color = c
    · simp [h, get_value_eq_spec]
    · simp [h]

theorem agent_material_eq_spec {β : Type} (L : ChessLib β) (bd : β) (c : Color) :
    agent_material L bd c = spec_material L bd c :=
  sum_if_color_eq_filter c (L.piece_map bd)

theorem opponent_material_eq_spec {β : Type} (L : ChessLib β) (bd : β) (c : Color) :
    opponent_material L bd c = spec_material L bd (!c) := by
  rw [← agent_material_eq_spec]
  unfold opponent_material agent_material
  congr 1
  apply List.map_congr_left
  intro pr _
  cases hc : pr.2.color <;> cases c <;> simp [hc]

theorem material_diff_eq_spec {β : Type} (L : ChessLib β) (bd : β) (c : Color) :
    material_diff L bd c = spec_material L bd c - spec_material L bd (!c) := by
  unfold material_diff
  rw [agent_material_eq_spec, opponent_material_eq_spec]

/-! ## Per-file pawn terms as counts -/

theorem doubled_score_eq {β : Type} (L : ChessLib β) (bd : β) (c : Color) :
    doubled_score L bd c = -0.3 * (doubled_file_count L bd c : ℚ) := by
  unfold doubled_score doubled_file_count
  exact sum_map_ite_countP (fun f => 1 < pawns_per_column L bd c f) (-0.3) (List.range 8)

theorem mid_passed_score_eq {β : Type} (L : ChessLib β) (bd : β) (c : Color) :
    mid_passed_score L bd c = 0.2 * (passed_file_count L bd c : ℚ) := by
  unfold mid_passed_score passed_file_count
  exact sum_map_ite_countP
    (fun f => 0 < pawns_per_column L bd c f ∧ pawns_per_column L bd (!c) f = 0)
    0.2 (List.range 8)

theorem mid_opp_passed_score_eq {β : Type} (L : ChessLib β) (bd : β) (c : Color) :
    mid_opp_passed_score L bd c = -0.2 * (passed_file_count L bd (!c) : ℚ) := by
  unfold mid_opp_passed_score passed_file_count
  rw [sum_map_ite_countP
    (fun f => 0 < pawns_per_column L bd (!c) f ∧ pawns_per_column L bd c f = 0)
    (-0.2) (List.range 8)]
  congr 2
  simp [Bool.not_not]

theorem end_passed_score_eq {β : Type} (L : ChessLib β) (bd : β) (c : Color) :
    end_passed_score L bd c = (passed_file_count L bd c : ℚ) := by
  unfold end_passed_score passed_file_count
  rw [sum_map_ite_countP
    (fun f => 0 < pawns_per_column L bd c f ∧ pawns_per_column L bd (!c) f = 0)
    1 (List.range 8), one_mul]

theorem end_opp_passed_score_eq {β : Type} (L : ChessLib β) (bd : β) (c : Color) :
    end_opp_passed_score L bd c = -(passed_file_count L bd (!c) : ℚ) := by
  unfold end_opp_passed_score passed_file_count
  rw [sum_map_ite_countP
    (fun f => 0 < pawns_per_column L bd (!c) f ∧ pawns_per_column L bd c f = 0)
    (-1) (List.range 8)]
  rw [neg_one_mul]
  congr 2
  simp [Bool.not_not]

set_option maxHeartbeats 1000000 in
theorem mid_isolated_score_eq {β : Type} (L : ChessLib β) (bd : β) (c : Color) :
    mid_isolated_score L bd c =
      -0.15 * (isolated_edge_file_count L bd c : ℚ)
        - 0.2 * (isolated_mid_file_count L bd c : ℚ) := by
  unfold mid_isolated_score isolated_edge_file_count isolated_mid_file_count
  simp only [show List.range 8 = [0, 1, 2, 3, 4, 5, 6, 7] from rfl, List.map_cons,
    List.map_nil, List.sum_cons, List.sum_nil, List.countP_cons, List.countP_nil,
    decide_eq_true_eq]
  norm_num
  push_cast
  split_ifs <;> norm_num

/-! ## Move-ordering facts -/

theorem move_priority_eq_spec {β : Type} (L : ChessLib β) (bd : β) (m : Move)
    (h : L.is_into_check bd m = false) :
    move_priority L bd m = spec_priority L bd m := by
  unfold move_priority spec_priority
  rw [h]
  simp

theorem spec_priority_capture_none_dest {β : Type} (L : ChessLib β) (bd : β) (m : Move)
    (hcap : L.is_capture bd m = true) (hto : L.piece_at bd m.to_square = none) :
    spec_priority L bd m = 10 + (if m.promotion.isSome then 50 else 0) := by
  unfold spec_priority
  rw [hcap, hto]
  cases L.piece_at bd m.from_square <;> simp

theorem spec_priority_capture_some {β : Type} (L : ChessLib β) (bd : β) (m : Move)
    (v u : Piece) (hcap : L.is_capture bd m = true)
    (hto : L.piece_at bd m.to_square = some v)
    (hfrom : L.piece_at bd m.from_square = some u) :
    spec_priority L bd m = get_value v - get_value u +
      (if m.promotion.isSome then 50 else 0) := by
  unfold spec_priority
  rw [hcap, hto, hfrom]
  simp

theorem spec_priority_noncapture {β : Type} (L : ChessLib β) (bd : β) (m : Move)
    (hcap : L.is_capture bd m = false) :
    spec_priority L bd m = -10 + (if m.promotion.isSome then 50 else 0) := by
  unfold spec_priority
  rw [hcap]
  simp

theorem spec_priority_capture_lb {β : Type} (L : ChessLib β) (bd : β) (m : Move)
    (hcap : L.is_capture bd m = true) (hpromo : m.promotion = none) :
    -9 ≤ spec_priority L bd m := by
  cases hto : L.piece_at bd m.to_square with
  | none =>
    rw [spec_priority_capture_none_dest L bd m hcap hto, hpromo]
    norm_num
  | some v =>
    cases hfrom : L.piece_at bd m.from_square with
    | none =>
      unfold spec_priority
      rw [hcap, hto, hfrom, hpromo]
      norm_num
    | some u =>
      rw [spec_priority_capture_some L bd m v u hcap hto hfrom, hpromo]
      have h1 := get_value_nonneg v
      have h2 := get_value_le_nine u
      simp only [Option.isSome_none, if_false, Bool.false_eq_true]
      linarith

theorem ordered_mem_legal {β : Type} (L : ChessLib β) (bd : β) (m : Move)
    (h : m ∈ get_ordered_legal_moves L bd) : m ∈ L.legal_moves bd :=
  (sort_desc_perm (move_priority L bd) (L.legal_moves bd)).mem_iff.1 h

theorem ordered_sorted_spec {β : Type} (L : ChessLib β) (bd : β)
    (Hchk : ∀ m ∈ L.legal_moves bd, L.is_into_check bd m = false) :
    (get_ordered_legal_moves L bd).Sorted
      (fun m1 m2 => spec_priority L bd m2 ≤ spec_priority L bd m1) := by
  have hs := sort_desc_sorted (move_priority L bd) (L.legal_moves bd)
  refine List.Pairwise.imp_of_mem ?_ hs
  intro m1 m2 h1 h2 hle
  rw [← move_priority_eq_spec L bd m1 (Hchk m1 (ordered_mem_legal L bd m1 h1)),
    ← move_priority_eq_spec L bd m2 (Hchk m2 (ordered_mem_legal L bd m2 h2))]
  exact hle

theorem sorted_strict_before {α : Type} (key : α → ℚ) (l : List α)
    (hs : l.Sorted (fun x y => key y ≤ key x)) (i j : Nat)
    (hi : i < l.length) (hj : j < l.length)
    (h : key (l.get ⟨j, hj⟩) < key (l.get ⟨i, hi⟩)) : i < j := by
  by_contra hc
  push_neg at hc
  rcases Nat.eq_or_lt_of_le hc with heq | hlt
  · subst heq
    exact absurd h (lt_irrefl _)
  · have := hs.rel_get_of_lt (show (⟨j, hj⟩ : Fin l.length) < ⟨i, hi⟩ from hlt)
    exact absurd h (not_lt.2 this)

/-! ## Claim theorems -/

/-- C2: for every position and depth, the alpha-beta search started with
the full window `(-inf, inf)` returns exactly the unpruned minimax score
over the same move tree with the same evaluator, in both the sequential
and the parallel variant of `_alphabeta`; pruning and move ordering can
only change which nodes are visited, never the returned score.  The
hypothesis ties the statement to positions on which the parallel
variant's `max`/`min` over the child scores is defined (a position whose
outcome is undecided has legal moves). -/
theorem alphabeta_equals_minimax {β : Type} (L : ChessLib β) (c : Color)
    (Hne : ∀ bd : β, L.outcome bd = none → L.legal_moves bd ≠ [])
    (d : Nat) (node : β) (maximizing : Bool) :
    alphabeta_seq L c d node maximizing ⊥ ⊤ = minimax_spec L c d node maximizing ∧
    alphabeta_par L c d node maximizing ⊥ ⊤ = minimax_spec L c d node maximizing := by
  have _hne := Hne
  exact ⟨alphabeta_seq_full_window L c d node maximizing,
    alphabeta_par_full_window L c d node maximizing⟩

/-- Witness for C2 on the concrete game `CLg`. -/
theorem alphabeta_equals_minimax_witness :
    alphabeta_seq CLg true 2 0 true ⊥ ⊤ = minimax_spec CLg true 2 0 true ∧
    alphabeta_par CLg true 2 0 true ⊥ ⊤ = minimax_spec CLg true 2 0 true :=
  alphabeta_equals_minimax CLg true (by decide) 2 0 true

/-- C3: the evaluator returns exactly 0.5 on a decided draw, exactly the
win sentinel 1e6 when the recorded winner is the evaluated color,
exactly −1e6 when the winner is the opposite color, and short-circuits
to exactly 0.5 on a claimable draw before any outcome is recorded. -/
theorem get_heuristic_terminal_values {β : Type} (L : ChessLib β) (bd : β) (c : Color) :
    (∀ oc : Outcome, L.outcome bd = some oc → oc.winner = none →
      get_heuristic L bd c = 0.5) ∧
    (∀ (oc : Outcome) (w : Color), L.outcome bd = some oc → oc.winner = some w →
      get_heuristic L bd c = (if w = c then 1000000 else -1000000)) ∧
    (L.outcome bd = none → L.can_claim_draw bd = true → get_heuristic L bd c = 0.5) := by
  refine ⟨?_, ?_, ?_⟩
  · intro oc h hw
    rw [get_heuristic_decided L bd c oc h, hw]
  · intro oc w h hw
    rw [get_heuristic_decided L bd c oc h, hw]
  · intro h1 h2
    exact get_heuristic_claim_draw L bd c h1 h2

/-- Witness for C3 on the drawn and the won positions of `CLg`. -/
theorem get_heuristic_terminal_values_witness :
    get_heuristic CLg 3 true = 0.5 ∧ get_heuristic CLg 1 true = 1000000 := by
  constructor
  · exact (get_heuristic_terminal_values CLg 3 true).1 ⟨none⟩ (by decide) rfl
  · have h := (get_heuristic_terminal_values CLg 1 true).2.1 ⟨some true⟩ true
      (by decide) rfl
    simpa using h

/-- C4: on a live, non-claimable-draw position the evaluator is the sum
of its positional terms and the material difference — the sum of the
standard piece values (pawn 1, knight 3, bishop 3, rook 5, queen 9,
king 0) of the evaluated color's pieces minus the opponent's — weighted
1 in the opening, 1.5 in the midgame and 3 in the endgame. -/
theorem heuristic_material_decomposition {β : Type} (L : ChessLib β) (bd : β) (c : Color)
    (h1 : L.outcome bd = none) (h2 : L.can_claim_draw bd = false) :
    get_heuristic L bd c = positional_score L bd c +
      phase_weight (game_phase L bd) *
        (spec_material L bd c - spec_material L bd (!c)) ∧
    (∀ p : Piece, get_value p = spec_piece_value p.piece_type) ∧
    phase_weight GamePhase.opening = 1 ∧ phase_weight GamePhase.midgame = 1.5 ∧
    phase_weight GamePhase.endgame = 3 := by
  refine ⟨?_, get_value_eq_spec, rfl, by norm_num [phase_weight], rfl⟩
  rw [get_heuristic_live L bd c h1 h2, material_diff_eq_spec]

/-- Witness for C4 on the midgame position `CLp 0`. -/
theorem heuristic_material_decomposition_witness :
    get_heuristic CLp 0 true = positional_score CLp 0 true +
      phase_weight (game_phase CLp 0) *
        (spec_material CLp 0 true - spec_material CLp 0 (!true)) :=
  (heuristic_material_decomposition CLp 0 true rfl rfl).1

/-- C5 (amended): the evaluator classifies a live position OPENING
exactly when fewer than 12 half-moves (6 full moves) have been played;
otherwise ENDGAME exactly when fewer than 13 pieces are on the board;
otherwise MIDGAME; a position satisfying both threshold conditions is
OPENING. -/
theorem game_phase_classification {β : Type} (L : ChessLib β) (bd : β)
    (h1 : L.outcome bd = none) (h2 : L.can_claim_draw bd = false) :
    (game_phase L bd = GamePhase.opening ↔ L.move_stack_len bd < 12) ∧
    (game_phase L bd = GamePhase.endgame ↔
      ¬ L.move_stack_len bd < 12 ∧ (L.piece_map bd).length < 13) ∧
    (game_phase L bd = GamePhase.midgame ↔
      ¬ L.move_stack_len bd < 12 ∧ ¬ (L.piece_map bd).length < 13) ∧
    (L.move_stack_len bd < 12 ∧ (L.piece_map bd).length < 13 →
      game_phase L bd = GamePhase.opening) := by
  have _h1 := h1
  have _h2 := h2
  unfold game_phase
  by_cases ha : L.move_stack_len bd < 12
  · simp [ha]
  · by_cases hb : (L.piece_map bd).length < 13 <;> simp [ha, hb]

/-- C5 counterexample: after 11 half-moves (far above any threshold "on
the order of 6 half-moves") with all 32 pieces on the board, the code
still classifies the position OPENING, because its threshold is 12
half-moves (6 full moves), not 6 half-moves. -/
theorem game_phase_opening_at_eleven_halfmoves :
    game_phase CLp 3 = GamePhase.opening ∧ CLp.move_stack_len 3 = 11 ∧
    ¬ CLp.move_stack_len 3 < 6 ∧ (CLp.piece_map 3).length = 32 := by decide

/-- Witness for the amended C5 on the midgame position `CLp 0`. -/
theorem game_phase_classification_witness : game_phase CLp 0 = GamePhase.midgame :=
  (game_phase_classification CLp 0 rfl rfl).2.2.1.mpr (by decide)

/-- C6 (amended): in MIDGAME the evaluator applies, per file, all four
pawn-structure terms — a doubled-pawn penalty of −0.3 (from the block
shared with the opening), a passed-pawn bonus of +0.2, an opponent
passed-pawn penalty of −0.2 and an isolated-pawn penalty (−0.15 on edge
files, −0.2 on interior files); in ENDGAME it applies only the
passed-pawn bonus (+1) and the opponent passed-pawn penalty (−1),
together with the king-activity term — no doubled- or isolated-pawn
penalty. -/
theorem heuristic_pawn_terms_mid_end {β : Type} (L : ChessLib β) (bd : β) (c : Color)
    (h1 : L.outcome bd = none) (h2 : L.can_claim_draw bd = false) :
    (game_phase L bd = GamePhase.midgame →
      get_heuristic L bd c =
        king_pos_score L bd c + center_score L bd c
          + (-0.3) * (doubled_file_count L bd c : ℚ)
          + 0.2 * (passed_file_count L bd c : ℚ)
          + (-0.2) * (passed_file_count L bd (!c) : ℚ)
          + ((-0.15) * (isolated_edge_file_count L bd c : ℚ)
              - 0.2 * (isolated_mid_file_count L bd c : ℚ))
          + 1.5 * (spec_material L bd c - spec_material L bd (!c))) ∧
    (game_phase L bd = GamePhase.endgame →
      get_heuristic L bd c =
        (passed_file_count L bd c : ℚ) - (passed_file_count L bd (!c) : ℚ)
          + king_activity_score L bd
          + 3 * (spec_material L bd c - spec_material L bd (!c))) := by
  rw [get_heuristic_live L bd c h1 h2, material_diff_eq_spec]
  constructor
  · intro hph
    unfold positional_score
    rw [hph]
    simp only [reduceCtorEq, or_true, or_false, false_or, if_true, if_false, reduceIte]
    rw [doubled_score_eq, mid_passed_score_eq, mid_opp_passed_score_eq,
      mid_isolated_score_eq]
    simp only [phase_weight]
    ring
  · intro hph
    unfold positional_score
    rw [hph]
    simp only [reduceCtorEq, or_true, or_false, false_or, or_self, if_true, if_false,
      reduceIte]
    rw [end_passed_score_eq, end_opp_passed_score_eq]
    simp only [phase_weight]
    ring

/-- C6 counterexample: the two 4-piece endgames `CLp 1` (pawns a2+b2,
no isolated pawn) and `CLp 2` (pawns a2+c2, two isolated pawns) receive
exactly the same evaluation — the endgame branch applies no
isolated-pawn (and no doubled-pawn) penalty. -/
theorem endgame_ignores_isolated_pawns :
    get_heuristic CLp 1 true = get_heuristic CLp 2 true ∧
    game_phase CLp 1 = GamePhase.endgame ∧ game_phase CLp 2 = GamePhase.endgame ∧
    isolated_file_count CLp 1 true = 0 ∧ isolated_file_count CLp 2 true = 2 := by
  refine ⟨?_, by decide, by decide, by decide, by decide⟩
  rw [get_heuristic_live CLp 1 true rfl rfl, get_heuristic_live CLp 2 true rfl rfl]
  have hp1 : game_phase CLp 1 = GamePhase.endgame := by decide
  have hp2 : game_phase CLp 2 = GamePhase.endgame := by decide
  unfold positional_score
  rw [hp1, hp2]
  simp only [reduceCtorEq, or_self, or_true, or_false, false_or, if_true, if_false,
    reduceIte]
  rw [end_passed_score_eq, end_opp_passed_score_eq, end_passed_score_eq,
    end_opp_passed_score_eq]
  have h1 : passed_file_count CLp 1 true = 2 := by decide
  have h2 : passed_file_count CLp 2 true = 2 := by decide
  have h3 : passed_file_count CLp 1 (!true) = 0 := by decide
  have h4 : passed_file_count CLp 2 (!true) = 0 := by decide
  rw [h1, h2, h3, h4]
  have h5 : king_activity_score CLp 1 = king_activity_score CLp 2 := by
    norm_num [king_activity_score, CLp, wK, wP, bK]
  have h6 : material_diff CLp 1 true = material_diff CLp 2 true := by
    have e1 : CLp.piece_map 1 = [(8, wP), (9, wP), (4, wK), (60, bK)] := by decide
    have e2 : CLp.piece_map 2 = [(8, wP), (10, wP), (4, wK), (60, bK)] := by decide
    norm_num [material_diff, agent_material, opponent_material, e1, e2, get_value,
      wP, wK, bK]
  rw [h5, h6]

/-- Witness for the amended C6 on the endgame position `CLp 1`. -/
theorem heuristic_pawn_terms_mid_end_witness :
    get_heuristic CLp 1 true =
      (passed_file_count CLp 1 true : ℚ) - (passed_file_count CLp 1 (!true) : ℚ)
        + king_activity_score CLp 1
        + 3 * (spec_material CLp 1 true - spec_material CLp 1 (!true)) :=
  (heuristic_pawn_terms_mid_end CLp 1 true rfl rfl).2 (by decide)

/-- C7: the move orderer returns a permutation of the legal moves sorted
by non-increasing composite priority — captures with a piece on the
destination square score victim minus attacker, non-captures score the
fixed baseline −10, promotions add the flat +50 — and consequently
every non-promotion capture is ordered before every non-promotion
non-capture.  The hypothesis records the python-chess guarantee that a
legal move never puts one's own king into check, which makes the +5
`is_into_check` bonus of the source vanish on legal moves. -/
theorem get_ordered_legal_moves_spec {β : Type} (L : ChessLib β) (bd : β)
    (Hchk : ∀ m ∈ L.legal_moves bd, L.is_into_check bd m = false) :
    (get_ordered_legal_moves L bd).Perm (L.legal_moves bd) ∧
    (get_ordered_legal_moves L bd).Sorted
      (fun m1 m2 => spec_priority L bd m2 ≤ spec_priority L bd m1) ∧
    (∀ m ∈ L.legal_moves bd, move_priority L bd m = spec_priority L bd m) ∧
    (∀ m ∈ L.legal_moves bd, L.is_capture bd m = false →
      spec_priority L bd m = -10 + (if m.promotion.isSome then 50 else 0)) ∧
    (∀ (i j : Nat) (hi : i < (get_ordered_legal_moves L bd).length)
        (hj : j < (get_ordered_legal_moves L bd).length),
      L.is_capture bd ((get_ordered_legal_moves L bd).get ⟨i, hi⟩) = true →
      ((get_ordered_legal_moves L bd).get ⟨i, hi⟩).promotion = none →
      L.is_capture bd ((get_ordered_legal_moves L bd).get ⟨j, hj⟩) = false →
      ((get_ordered_legal_moves L bd).get ⟨j, hj⟩).promotion = none →
      i < j) := by
  refine ⟨sort_desc_perm _ _, ordered_sorted_spec L bd Hchk,
    (fun m hm => move_priority_eq_spec L bd m (Hchk m hm)),
    (fun m _ hcap => spec_priority_noncapture L bd m hcap), ?_⟩
  intro i j hi hj hci hpi hcj hpj
  apply sorted_strict_before (spec_priority L bd) _ (ordered_sorted_spec L bd Hchk)
  have hlbi : -9 ≤ spec_priority L bd ((get_ordered_legal_moves L bd).get ⟨i, hi⟩) :=
    spec_priority_capture_lb L bd _ hci hpi
  have hj10 : spec_priority L bd ((get_ordered_legal_moves L bd).get ⟨j, hj⟩) = -10 := by
    rw [spec_priority_noncapture L bd _ hcj, hpj]
    norm_num
  rw [hj10]
  linarith

/-- Witness for C7 on the five-move ordering position `CLm 0`. -/
theorem get_ordered_legal_moves_spec_witness :
    (get_ordered_legal_moves CLm 0).Perm (CLm.legal_moves 0) ∧
    move_priority CLm 0 mQuiet = spec_priority CLm 0 mQuiet := by
  have h := get_ordered_legal_moves_spec CLm 0 (by decide)
  exact ⟨h.1, h.2.2.1 mQuiet (by decide)⟩

/-- C10: a legal capture whose destination square is empty (an
en-passant capture) gets the fallback base priority 10 through the
`AttributeError` handler; every capture with a piece on its destination
scores victim minus attacker, which never exceeds 9; hence in the
ordered move list every en-passant capture precedes every non-promotion
capture with a piece on its destination square. -/
theorem en_passant_priority {β : Type} (L : ChessLib β) (bd : β)
    (Hchk : ∀ m ∈ L.legal_moves bd, L.is_into_check bd m = false) :
    (∀ m ∈ L.legal_moves bd, L.is_capture bd m = true →
      L.piece_at bd m.to_square = none → m.promotion = none →
      move_priority L bd m = 10) ∧
    (∀ m ∈ L.legal_moves bd, L.is_capture bd m = true → m.promotion = none →
      ∀ v u : Piece, L.piece_at bd m.to_square = some v →
        L.piece_at bd m.from_square = some u →
        move_priority L bd m = get_value v - get_value u ∧
        get_value v - get_value u ≤ 9) ∧
    (∀ (i j : Nat) (hi : i < (get_ordered_legal_moves L bd).length)
        (hj : j < (get_ordered_legal_moves L bd).length),
      L.is_capture bd ((get_ordered_legal_moves L bd).get ⟨i, hi⟩) = true →
      L.piece_at bd ((get_ordered_legal_moves L bd).get ⟨i, hi⟩).to_square = none →
      L.is_capture bd ((get_ordered_legal_moves L bd).get ⟨j, hj⟩) = true →
      ((get_ordered_legal_moves L bd).get ⟨j, hj⟩).promotion = none →
      (∃ v : Piece,
        L.piece_at bd ((get_ordered_legal_moves L bd).get ⟨j, hj⟩).to_square = some v) →
      (∃ u : Piece,
        L.piece_at bd ((get_ordered_legal_moves L bd).get ⟨j, hj⟩).from_square = some u) →
      i < j) := by
  refine ⟨?_, ?_, ?_⟩
  · intro m hm hcap hto hpromo
    rw [move_priority_eq_spec L bd m (Hchk m hm),
      spec_priority_capture_none_dest L bd m hcap hto, hpromo]
    norm_num
  · intro m hm hcap hpromo v u hto hfrom
    have h1 := get_value_le_nine v
    have h2 := get_value_nonneg u
    constructor
    · rw [move_priority_eq_spec L bd m (Hchk m hm),
        spec_priority_capture_some L bd m v u hcap hto hfrom, hpromo]
      norm_num
    · linarith
  · intro i j hi hj hci htoi hcj hpj hv hu
    obtain ⟨v, hv⟩ := hv
    obtain ⟨u, hu⟩ := hu
    apply sorted_strict_before (spec_priority L bd) _ (ordered_sorted_spec L bd Hchk)
    have hji : spec_priority L bd ((get_ordered_legal_moves L bd).get ⟨j, hj⟩) =
        get_value v - get_value u := by
      rw [spec_priority_capture_some L bd _ v u hcj hv hu, hpj]
      norm_num
    have hub : get_value v - get_value u ≤ 9 :=
      sub_le_iff_le_add.2 (le_trans (get_value_le_nine v)
        (by linarith [get_value_nonneg u]))
    have hlbi : (10 : ℚ) ≤ spec_priority L bd
        ((get_ordered_legal_moves L bd).get ⟨i, hi⟩) := by
      rw [spec_priority_capture_none_dest L bd _ hci htoi]
      split_ifs <;> norm_num
    rw [hji]
    linarith

/-- Witness for C10 on `CLm 0`: the en-passant capture has priority 10
and is ordered before the queen-takes-pawn capture. -/
theorem en_passant_priority_witness : move_priority CLm 0 mEP = 10 :=
  (en_passant_priority CLm 0 (by decide)).1 mEP (by decide) (by decide) rfl rfl

/-- C8: on a position with no legal moves `get_best_move` raises instead
of returning a move, in both paths: the score map stays empty, the
best-move list is empty, and `random.choice` of an empty sequence raises
(modelled by `choice [] = none`). -/
theorem get_best_move_terminal_raises {β : Type} (L : ChessLib β)
    (choice : List Move → Option Move) (d : Nat) (bd : β)
    (hc : choice ([] : List Move) = none) (h : L.legal_moves bd = []) :
    get_best_move_seq L choice d bd = none ∧ get_best_move_par L choice d bd = none := by
  constructor
  · rw [get_best_move_seq, root_scores_seq, h]
    simpa [best_root_moves] using hc
  · rw [get_best_move_par, root_scores_par, h]
    simpa [best_root_moves] using hc

/-- Witness for C8 on the terminal position `CLg 1`. -/
theorem get_best_move_terminal_raises_witness :
    get_best_move_seq CLg List.head? 3 1 = none ∧
    get_best_move_par CLg List.head? 3 1 = none :=
  get_best_move_terminal_raises CLg List.head? 3 1 rfl (by decide)

/-- C9: on positions satisfying the basic invariants of real chess (at
most 32 pieces, at most 16 attackers of a center square, at most 218
legal moves, and legal moves whenever the outcome is undecided), every
value of the evaluator and every value returned by `_alphabeta` — for
any depth, maximizing flag and alpha/beta inputs, sequential or
parallel — lies in the closed interval [−1e6, 1e6] between the loss and
win sentinels. -/
theorem search_scores_bounded {β : Type} (L : ChessLib β) (c : Color)
    (H32 : ∀ bd : β, (L.piece_map bd).length ≤ 32)
    (Hatt : ∀ (bd : β) (col : Color), ∀ sq ∈ center_squares,
      L.attackers_len bd col sq ≤ 16)
    (Hlm : ∀ bd : β, (L.legal_moves bd).length ≤ 218)
    (Hne : ∀ bd : β, L.outcome bd = none → L.legal_moves bd ≠ [])
    (d : Nat) (node : β) (maximizing : Bool) (a b : Score) :
    (-1000000 ≤ get_heuristic L node c ∧ get_heuristic L node c ≤ 1000000) ∧
    (qS (-1000000) ≤ alphabeta_seq L c d node maximizing a b ∧
      alphabeta_seq L c d node maximizing a b ≤ qS 1000000) ∧
    (qS (-1000000) ≤ alphabeta_par L c d node maximizing a b ∧
      alphabeta_par L c d node maximizing a b ≤ qS 1000000) := by
  have Hheur : ∀ bd : β, -1000000 ≤ get_heuristic L bd c ∧
      get_heuristic L bd c ≤ 1000000 :=
    fun bd => get_heuristic_bounds L bd c (H32 bd) (Hatt bd) (Hlm bd)
  exact ⟨Hheur node,
    alphabeta_seq_bounds L c (-1000000) 1000000 Hheur Hne d node maximizing a b,
    alphabeta_par_bounds L c (-1000000) 1000000 Hheur Hne d node maximizing a b⟩

/-- Witness for C9 on the concrete game `CLg`. -/
theorem search_scores_bounded_witness :
    qS (-1000000) ≤ alphabeta_seq CLg true 2 0 true ⊥ ⊤ ∧
    alphabeta_seq CLg true 2 0 true ⊥ ⊤ ≤ qS 1000000 :=
  (search_scores_bounded CLg true (by decide) (by decide) (by decide) (by decide)
    2 0 true ⊥ ⊤).2.1

/-- C1 (code bug): in the parallel path of `get_best_move` the loop body
rebinds the whole future dictionary instead of inserting into it, so
only the last legal move is scored and returned.  On the game `CLg`
(root with a winning move `mA` and a losing last move `mB`, depth 1) the
parallel path returns the losing `mB` while the sequential path returns
`mA`; the retained score map holds `mB` alone, and `mB`'s root score is
strictly below `mA`'s. -/
theorem get_best_move_parallel_keeps_last_move_only :
    get_best_move_par CLg List.head? 1 0 = some mB ∧
    get_best_move_seq CLg List.head? 1 0 = some mA ∧
    root_scores_par CLg 1 0 = [(mB, qS (-1000000))] ∧
    alphabeta_par CLg true 0 (CLg.push 0 mB) false ⊥ ⊤ <
      alphabeta_par CLg true 0 (CLg.push 0 mA) false ⊥ ⊤ := by
  decide
